import Mathlib

/-!
# Crawler engine (`plugins/crawler/scripts/crawler/engine/main.go`)

A shallow embedding of the crawl engine: the data model, the URL filter
(`shouldExclude`, `isAllowedDomain`, `shouldSkip`), the checkpoint store
(`LoadCheckpoint`, `SaveCheckpoint`), `crawlPage`, and the scheduler
(`Start` and `worker`) as an interleaving transition system.

Conventions.
* Go strings are Lean `String`s, that is, Go strings that are valid UTF-8;
  matching works on the character list. The checkpoint round trip, where bytes
  that are not valid UTF-8 matter, is embedded over byte strings (`Engine.Bytes`).
* `int`/`int64` counters are `Int`; the counters only ever grow by one per
  event, so 64-bit wrap-around is out of reach and is not modelled.
* `time.Time` values are `Nat` timestamps.
* The Go standard library (`net/url`, `net/http`, `encoding/json`, `html`, the
  file system) is an explicit environment `Lib`; the network answer to a fetch
  is supplied with each scheduler action.
-/

namespace Engine

/-! ## String helpers standing for the Go library calls used by the engine -/

/-- The Go call `strings.Contains(s, sub)`. -/
def stringsContains (s sub : String) : Bool :=
  decide (sub.data <:+: s.data)

/-- The Go call `strings.ReplaceAll(s, ".", "_")`: both strings are one
character long, so every dot is replaced on its own. -/
def replaceDots (s : String) : String :=
  ⟨s.data.map (fun c => if c = '.' then '_' else c)⟩

/-- Split a path at every slash (the elements `filepath.Clean` works on). -/
def splitSlash : List Char → List (List Char)
  | [] => [[]]
  | c :: cs =>
    match splitSlash cs with
    | [] => [[]]
    | h :: t => if c = '/' then [] :: h :: t else (c :: h) :: t

/-- One element of the lexical processing of `filepath.Clean`; `stack` holds
the kept elements, innermost first. -/
def cleanPush (rooted : Bool) (stack : List (List Char)) (comp : List Char) :
    List (List Char) :=
  if comp = [] ∨ comp = ['.'] then stack
  else if comp = ['.', '.'] then
    match stack with
    | top :: rest => if top = ['.', '.'] then comp :: stack else rest
    | [] => if rooted then [] else [comp]
  else comp :: stack

/-- The Go call `filepath.Clean(path)` on a Unix path. -/
def filepathClean (path : String) : String :=
  if path.data = [] then "."
  else
    let rooted : Bool := decide (path.data.head? = some '/')
    let kept := ((splitSlash path.data).foldl (cleanPush rooted) []).reverse
    let body := (if rooted then ['/'] else []) ++ List.intercalate ['/'] kept
    if body = [] then "." else ⟨body⟩

/-- The Go call `filepath.Join(elem...)`: empty elements are ignored, the rest
joined by a slash and cleaned. -/
def filepathJoin (elems : List String) : String :=
  match elems.filter (fun e => e ≠ "") with
  | [] => ""
  | es => filepathClean ⟨List.intercalate ['/'] (es.map String.data)⟩

/-! ## Data model -/

/-- The Go struct `PageResult`. -/
structure PageResult where
  URL : String := ""
  Title : String := ""
  StatusCode : Int := 0
  Depth : Int := 0
  Links : List String := []
  Error : String := ""
  CrawledAt : Nat := 0
  ContentType : String := ""
  deriving DecidableEq, Repr

/-- The Go struct `CrawlJob`. -/
structure CrawlJob where
  URL : String
  Depth : Int
  deriving DecidableEq, Repr

/-- The Go struct `Stats`. -/
structure Stats where
  PagesFound : Int := 0
  PagesCrawled : Int := 0
  ExternalLinks : Int := 0
  ExcludedLinks : Int := 0
  Errors : Int := 0
  StartTime : Nat := 0
  deriving DecidableEq, Repr

/-- The Go struct `Checkpoint`. -/
structure Checkpoint where
  VisitedURLs : List String
  Results : List PageResult
  Stats : Stats
  LastSaved : Nat
  deriving DecidableEq, Repr

/-- The Go struct `Config`. -/
structure Config where
  BaseURL : String
  AllowedDomain : String
  MaxDepth : Int
  MaxWorkers : Int
  RateLimit : Int
  OutputDir : String
  UseSitemap : Bool
  deriving DecidableEq, Repr

/-- One compiled entry of `excludePatterns`. Each constructor is one of the
three regular-expression shapes of the table, with the meaning Go's `regexp`
gives it (`MatchString` is unanchored, `^` and `$` are the ends of the text,
and `.` is any character but a line feed). -/
inductive Regexp where
  /-- The shape `\.(e1|e2|...)$`. -/
  | dotExtAtEnd (exts : List String)
  /-- The shape `^p`. -/
  | atStart (p : String)
  /-- The shape `\?.*w` for a literal word `w`. -/
  | queryThen (w : String)
  deriving DecidableEq, Repr

/-- Whether some `?` is followed, on the same line, by the word `w`. -/
def matchQueryThen (w : List Char) : List Char → Bool
  | [] => false
  | c :: r =>
    (c == '?' && decide (w <:+: r.takeWhile (fun d => d != '\n'))) || matchQueryThen w r

/-- The Go method `(*regexp.Regexp).MatchString`. -/
def Regexp.MatchString : Regexp → String → Bool
  | .dotExtAtEnd exts, s => exts.any (fun e => decide (('.' :: e.data) <:+ s.data))
  | .atStart p, s => decide (p.data <+: s.data)
  | .queryThen w, s => matchQueryThen w.data s.data

/-- The table `excludePatterns` of `NewCrawler`, in source order. -/
def excludePatterns : List Regexp :=
  [ .dotExtAtEnd ["jpg", "jpeg", "png", "gif", "svg", "ico", "pdf", "zip", "tar", "gz",
      "mp4", "mp3", "avi", "mov", "webp", "bmp"],
    .dotExtAtEnd ["css", "js", "woff", "woff2", "ttf", "eot", "otf"],
    .atStart "mailto:",
    .atStart "tel:",
    .atStart "javascript:",
    .atStart "#",
    .queryThen "utm_" ]

/-- The fields of the Go struct `Crawler` that the engine logic reads or
writes. `visited` lists the keys of the `sync.Map` (each key once); the list
order stands for the unspecified iteration order of `Range`. -/
structure Crawler where
  config : Config
  visited : List String := []
  results : List PageResult := []
  stats : Stats := {}
  checkpointFile : String
  excludeRegex : List Regexp
  activeJobs : Int := 0
  deriving DecidableEq, Repr

/-- The checkpoint path computed in `NewCrawler` from the allowed domain. -/
def checkpointPath (allowedDomain : String) : String :=
  let safeDomain := replaceDots allowedDomain
  filepathJoin ["/tmp", "crawler_" ++ safeDomain ++ "_checkpoint.json"]

/-- The Go function `NewCrawler`; `now` is the value of `time.Now()`. Every
pattern of the table compiles, so `excludeRegex` is the whole table. -/
def NewCrawler (config : Config) (now : Nat) : Crawler :=
  { config := config
    stats := { StartTime := now }
    excludeRegex := excludePatterns
    checkpointFile := checkpointPath config.AllowedDomain }

/-! ## The library environment -/

/-- The fields of the Go struct `url.URL` that the engine reads or writes, and
the rest of the parsed reference. -/
structure URL where
  Scheme : String := ""
  Host : String := ""
  Path : String := ""
  RawQuery : String := ""
  Fragment : String := ""
  deriving DecidableEq, Repr

/-- The standard-library functions the engine calls. -/
structure Lib where
  /-- The Go function `url.Parse`: the error text, or the parsed URL. -/
  urlParse : String → Except String URL
  /-- The Go method `(*url.URL).String`. -/
  urlString : URL → String
  /-- The Go function `json.Unmarshal` at type `Checkpoint`. -/
  jsonUnmarshal : String → Except String Checkpoint

/-- The files the engine can see: the content of each readable path, and
whether a write to a path succeeds. -/
structure FileSystem where
  files : String → Option String
  writable : String → Bool

/-- The Go call `os.WriteFile(path, data, 0644)` when it succeeds. -/
def FileSystem.write (fs : FileSystem) (path data : String) : FileSystem :=
  { fs with files := fun p => if p = path then some data else fs.files p }

/-- One node of the tree returned by `html.Parse`, as met by the depth-first
walks of `extractTitle` and `extractLinks`: whether it is an element node, its
`Data`, its attributes as (`Key`, `Val`) pairs, and the `Data` of its first
child if it has one. -/
structure HtmlNode where
  isElement : Bool
  Data : String
  Attr : List (String × String) := []
  FirstChild : Option String := none
  deriving DecidableEq, Repr

/-- What the network answers to `c.httpClient.Do(req)`: a transport error with
its text, or a response with its status code, `Content-Type` header and the
result of `html.Parse` on its body (the nodes in document order, or `none` when
parsing fails). -/
inductive FetchOutcome where
  | transportError (msg : String)
  | response (status : Int) (contentType : String) (doc : Option (List HtmlNode))
  deriving DecidableEq, Repr

/-! ## Visited set and URL filter -/

/-- The Go method `Crawler.isVisited`. -/
def isVisited (c : Crawler) (urlStr : String) : Bool :=
  decide (urlStr ∈ c.visited)

/-- The Go call `c.visited.Store(url, true)` on the key list. -/
def storeVisited (visited : List String) (urlStr : String) : List String :=
  if urlStr ∈ visited then visited else visited ++ [urlStr]

/-- The Go method `Crawler.markVisited`. -/
def markVisited (c : Crawler) (urlStr : String) : Crawler :=
  { c with visited := storeVisited c.visited urlStr }

/-- The Go method `Crawler.addResult`. -/
def addResult (c : Crawler) (result : PageResult) : Crawler :=
  { c with results := c.results ++ [result] }

/-- The Go call `atomic.AddInt64(&c.stats.ExcludedLinks, 1)`. -/
def addExcluded (c : Crawler) : Crawler :=
  { c with stats := { c.stats with ExcludedLinks := c.stats.ExcludedLinks + 1 } }

/-- The Go call `atomic.AddInt64(&c.stats.Errors, 1)`. -/
def addError (c : Crawler) : Crawler :=
  { c with stats := { c.stats with Errors := c.stats.Errors + 1 } }

/-- The Go call `atomic.AddInt64(&c.stats.PagesCrawled, 1)`. -/
def addCrawled (c : Crawler) : Crawler :=
  { c with stats := { c.stats with PagesCrawled := c.stats.PagesCrawled + 1 } }

/-- The Go call `atomic.AddInt64(&c.stats.PagesFound, 1)`. -/
def addFound (c : Crawler) : Crawler :=
  { c with stats := { c.stats with PagesFound := c.stats.PagesFound + 1 } }

/-- The Go call `atomic.AddInt64(&c.activeJobs, d)`. -/
def addActive (c : Crawler) (d : Int) : Crawler :=
  { c with activeJobs := c.activeJobs + d }

/-- The loop of `shouldExclude` over the patterns still to try. -/
def shouldExcludeLoop (c : Crawler) (urlStr : String) : List Regexp → Bool × Crawler
  | [] => (false, c)
  | re :: rest =>
    if re.MatchString urlStr then (true, addExcluded c)
    else shouldExcludeLoop c urlStr rest

/-- The Go method `Crawler.shouldExclude`: the answer and the crawler with its
counter updated. -/
def shouldExclude (c : Crawler) (urlStr : String) : Bool × Crawler :=
  shouldExcludeLoop c urlStr c.excludeRegex

/-- The Go method `Crawler.isAllowedDomain`. -/
def isAllowedDomain (lib : Lib) (c : Crawler) (urlStr : String) : Bool :=
  match lib.urlParse urlStr with
  | .error _ => false
  | .ok parsedURL => decide (parsedURL.Host = c.config.AllowedDomain)

/-- The Go method `Crawler.shouldSkip`; the operator `||` evaluates its right
side only when the left side is false. -/
def shouldSkip (lib : Lib) (c : Crawler) (urlStr : String) : Bool × Crawler :=
  if isVisited c urlStr then (true, c)
  else if !isAllowedDomain lib c urlStr then (true, c)
  else shouldExclude c urlStr

/-- The condition guarding the enqueue of a discovered link in `worker`:
`!c.isVisited(link) && c.isAllowedDomain(link) && !c.shouldExclude(link)`. -/
def acceptLink (lib : Lib) (c : Crawler) (link : String) : Bool × Crawler :=
  if isVisited c link then (false, c)
  else if !isAllowedDomain lib c link then (false, c)
  else ((!(shouldExclude c link).1), (shouldExclude c link).2)

/-! ## Page fetch -/

/-- The Go method `Crawler.normalizeURL`. The result `none` is the nil
dereference of `parsedBase` when the base does not parse and a field of it is
needed; `some ""` is the answer for an href that does not parse. -/
def normalizeURL (lib : Lib) (href baseURL : String) : Option String :=
  match lib.urlParse href with
  | .error _ => some ""
  | .ok parsedHref =>
    if parsedHref.Scheme = "" ∨ parsedHref.Host = "" then
      match lib.urlParse baseURL with
      | .error _ => none
      | .ok parsedBase =>
        let withScheme : URL :=
          if parsedHref.Scheme = "" then { parsedHref with Scheme := parsedBase.Scheme }
          else parsedHref
        let withHost : URL :=
          if withScheme.Host = "" then { withScheme with Host := parsedBase.Host }
          else withScheme
        some (lib.urlString { withHost with Fragment := "" })
    else some (lib.urlString { parsedHref with Fragment := "" })

/-- The Go method `Crawler.extractTitle` over the nodes in document order:
each `title` element with a first child overwrites the title. -/
def extractTitle (doc : List HtmlNode) : String :=
  doc.foldl (fun title n =>
    if n.isElement ∧ n.Data = "title" then
      match n.FirstChild with
      | some d => d
      | none => title
    else title) ""

/-- The `href` values of the `a` elements, in the order `extractLinks` meets
them. -/
def hrefsOf (doc : List HtmlNode) : List String :=
  doc.flatMap (fun n =>
    if n.isElement ∧ n.Data = "a" then
      (n.Attr.filter (fun kv => kv.1 = "href")).map (fun kv => kv.2)
    else [])

/-- The body of `extractLinks` for the hrefs still to visit; `links` is the
slice built so far. -/
def extractLinksLoop (lib : Lib) (baseURL : String) :
    List String → List String → Crawler → Option (List String × Crawler)
  | [], links, c => some (links, c)
  | href :: rest, links, c =>
    match normalizeURL lib href baseURL with
    | none => none
    | some link =>
      if link = "" then extractLinksLoop lib baseURL rest links c
      else if (shouldExclude c link).1 then
        extractLinksLoop lib baseURL rest links (shouldExclude c link).2
      else extractLinksLoop lib baseURL rest (links ++ [link]) (addFound (shouldExclude c link).2)

/-- The Go method `Crawler.extractLinks`. -/
def extractLinks (lib : Lib) (c : Crawler) (doc : List HtmlNode) (baseURL : String) :
    Option (List String × Crawler) :=
  extractLinksLoop lib baseURL (hrefsOf doc) [] c

/-- The Go method `Crawler.crawlPage`. `http.NewRequest("GET", pageURL, nil)`
fails exactly when `url.Parse(pageURL)` does, with its error text. The result
`none` is a panic. -/
def crawlPage (lib : Lib) (c : Crawler) (pageURL : String) (depth : Int) (now : Nat)
    (o : FetchOutcome) : Option (PageResult × Crawler) :=
  let result : PageResult := { URL := pageURL, Depth := depth, CrawledAt := now }
  match lib.urlParse pageURL with
  | .error msg => some ({ result with Error := msg }, addError c)
  | .ok _ =>
    match o with
    | .transportError msg => some ({ result with Error := msg }, addError c)
    | .response status contentType doc =>
      let result := { result with StatusCode := status, ContentType := contentType }
      if status ≠ 200 then
        some ({ result with Error := "HTTP " ++ toString status }, addError c)
      else
        let c := addCrawled c
        if stringsContains contentType "text/html" then
          match doc with
          | none => some (result, c)
          | some doc =>
            match extractLinks lib c doc pageURL with
            | none => none
            | some (links, c) => some ({ result with Title := extractTitle doc, Links := links }, c)
        else some (result, c)

/-! ## Checkpoint store -/

/-- The Go method `Crawler.LoadCheckpoint`: the returned flag and the crawler
after the call. A path without readable content stands for both a missing file
and a failed read. -/
def LoadCheckpoint (lib : Lib) (fs : FileSystem) (c : Crawler) : Bool × Crawler :=
  match fs.files c.checkpointFile with
  | none => (false, c)
  | some data =>
    match lib.jsonUnmarshal data with
    | .error _ => (false, c)
    | .ok checkpoint =>
      (true, { c with
        visited := checkpoint.VisitedURLs.foldl storeVisited c.visited
        results := checkpoint.Results
        stats := checkpoint.Stats })

/-! ## The scheduler: `Start` and `worker` as an interleaving transition system

Every goroutine has a program counter. One step of the system is one step of
one goroutine between two accesses to shared state (the crawler fields, the
`jobs` channel). The schedule, the clock and the network answers are given by
the list of actions, so every interleaving of the goroutines is a run. -/

/-- Where a `worker` goroutine stands. -/
inductive WorkerPC where
  /-- At `for job := range jobs`, waiting for a job. -/
  | idle
  /-- A job was received; next is `atomic.AddInt64(&c.activeJobs, -1)`. -/
  | received (job : CrawlJob)
  /-- Next is `c.shouldSkip(job.URL)`. -/
  | checking (job : CrawlJob)
  /-- The job was not skipped; next is `c.markVisited(job.URL)`. -/
  | marking (job : CrawlJob)
  /-- Next is `c.rateLimiter.Wait` and `c.crawlPage(job.URL, job.Depth)`. -/
  | fetching (job : CrawlJob)
  /-- The page result is in hand; next is `c.addResult(result)` and the depth test. -/
  | adding (job : CrawlJob) (result : PageResult)
  /-- In `for _, link := range result.Links` with these links left; next is the
  condition on the first of them. -/
  | linking (job : CrawlJob) (links : List String)
  /-- The condition held for `link`; next is `atomic.AddInt64(&c.activeJobs, 1)`. -/
  | counting (job : CrawlJob) (link : String) (rest : List String)
  /-- Next is `jobs <- CrawlJob{URL: link, Depth: job.Depth + 1}`. -/
  | sending (job : CrawlJob) (link : String) (rest : List String)
  /-- The channel was closed and empty: the goroutine returned. -/
  | exited
  deriving DecidableEq, Repr

/-- Where `Start` (after the workers are launched) and then its monitor
goroutine stand. The ticks, `printProgress` and the periodic `SaveCheckpoint`
of the monitor change no field of the state and are not steps. -/
inductive MainPC where
  /-- In `for _, url := range sitemapURLs` with these URLs left; next is the
  condition on the first of them. -/
  | seedSitemap (urls : List String)
  /-- The condition held for `url`; next is `atomic.AddInt64(&c.activeJobs, 1)`. -/
  | sitemapCounting (url : String) (rest : List String)
  /-- Next is `jobs <- CrawlJob{URL: url, Depth: 1}`. -/
  | sitemapSending (url : String) (rest : List String)
  /-- Next is `if !c.isVisited(c.config.BaseURL)`. -/
  | seedBase
  /-- Next is `atomic.AddInt64(&c.activeJobs, 1)` for the base URL. -/
  | baseCounting
  /-- Next is `jobs <- CrawlJob{URL: c.config.BaseURL, Depth: 0}`. -/
  | baseSending
  /-- The monitor goroutine waits for a tick; its next step is the first
  `atomic.LoadInt64(&c.activeJobs) == 0` after one. -/
  | monitoring
  /-- The monitor saw zero and sleeps; next is the second load and `close(jobs)`. -/
  | grace
  /-- The monitor closed the channel and returned. -/
  | finished
  deriving DecidableEq, Repr

/-- Who sent a job to the channel. -/
inductive Sender where
  | start
  | worker (i : Nat)
  deriving DecidableEq, Repr

/-- The capacity of the channel: `make(chan CrawlJob, 10000)`. -/
def jobsCap : Nat := 10000

/-- The state of a run of `Start`. The field `sent` is a history variable (every
send so far, oldest first, with its sender); the field `panicked` records a send
on the closed channel or a nil dereference. -/
structure State where
  c : Crawler
  jobs : List CrawlJob := []
  closed : Bool := false
  main : MainPC
  workers : List WorkerPC
  sent : List (Sender × CrawlJob) := []
  panicked : Bool := false
  deriving DecidableEq, Repr

/-- The state of `Start` once the checkpoint is loaded and the workers are
launched; `sitemapURLs` is what `c.FetchSitemap()` returns. -/
def Start (lib : Lib) (fs : FileSystem) (sitemapURLs : List String) (c : Crawler) : State :=
  { c := (LoadCheckpoint lib fs c).2
    main := if c.config.UseSitemap then .seedSitemap sitemapURLs else .seedBase
    workers := List.replicate c.config.MaxWorkers.toNat .idle }

/-- The send `jobs <- job` by `sender`, after which the sender's state is set by
`next`: a panic on a closed channel, blocked (`none`) on a full one. -/
def send (s : State) (sender : Sender) (job : CrawlJob) (next : State → State) :
    Option State :=
  if s.closed then some { s with panicked := true }
  else if s.jobs.length < jobsCap then
    some (next { s with jobs := s.jobs ++ [job], sent := s.sent ++ [(sender, job)] })
  else none

/-- One step of `Start` or of its monitor goroutine. -/
def mainStep (lib : Lib) (s : State) : Option State :=
  match s.main with
  | .seedSitemap [] => some { s with main := .seedBase }
  | .seedSitemap (url :: rest) =>
    if !isVisited s.c url && isAllowedDomain lib s.c url then
      some { s with main := .sitemapCounting url rest }
    else some { s with main := .seedSitemap rest }
  | .sitemapCounting url rest =>
    some { s with c := addActive s.c 1, main := .sitemapSending url rest }
  | .sitemapSending url rest =>
    send s .start { URL := url, Depth := 1 } (fun t => { t with main := .seedSitemap rest })
  | .seedBase =>
    if !isVisited s.c s.c.config.BaseURL then some { s with main := .baseCounting }
    else some { s with main := .monitoring }
  | .baseCounting => some { s with c := addActive s.c 1, main := .baseSending }
  | .baseSending =>
    send s .start { URL := s.c.config.BaseURL, Depth := 0 }
      (fun t => { t with main := .monitoring })
  | .monitoring =>
    if s.c.activeJobs = 0 then some { s with main := .grace } else some s
  | .grace =>
    if s.c.activeJobs = 0 then some { s with closed := true, main := .finished }
    else some { s with main := .monitoring }
  | .finished => none

/-- The state with worker `i` at `pc`. -/
def State.setWorker (s : State) (i : Nat) (pc : WorkerPC) : State :=
  { s with workers := s.workers.set i pc }

/-- One step of worker `i`, which stands at `pc`; `now` and `o` are the clock
and the network answer used if the step is `crawlPage`. -/
def workerStep (lib : Lib) (i : Nat) (now : Nat) (o : FetchOutcome) (pc : WorkerPC)
    (s : State) : Option State :=
  match pc with
  | .idle =>
    match s.jobs with
    | job :: rest => some ({ s with jobs := rest }.setWorker i (.received job))
    | [] => if s.closed then some (s.setWorker i .exited) else none
  | .received job => some ({ s with c := addActive s.c (-1) }.setWorker i (.checking job))
  | .checking job =>
    let r := shouldSkip lib s.c job.URL
    if r.1 then some ({ s with c := r.2 }.setWorker i .idle)
    else some ({ s with c := r.2 }.setWorker i (.marking job))
  | .marking job => some ({ s with c := markVisited s.c job.URL }.setWorker i (.fetching job))
  | .fetching job =>
    match crawlPage lib s.c job.URL job.Depth now o with
    | none => some { s with panicked := true }
    | some (result, c) => some ({ s with c := c }.setWorker i (.adding job result))
  | .adding job result =>
    if job.Depth < s.c.config.MaxDepth then
      some ({ s with c := addResult s.c result }.setWorker i (.linking job result.Links))
    else some ({ s with c := addResult s.c result }.setWorker i .idle)
  | .linking _ [] => some (s.setWorker i .idle)
  | .linking job (link :: rest) =>
    let r := acceptLink lib s.c link
    if r.1 then some ({ s with c := r.2 }.setWorker i (.counting job link rest))
    else some ({ s with c := r.2 }.setWorker i (.linking job rest))
  | .counting job link rest =>
    some ({ s with c := addActive s.c 1 }.setWorker i (.sending job link rest))
  | .sending job link rest =>
    send s (.worker i) { URL := link, Depth := job.Depth + 1 }
      (fun t => t.setWorker i (.linking job rest))
  | .exited => none

/-- A scheduling choice: the goroutine that moves, and for a worker the clock
and the network answer it meets if it is about to fetch. -/
inductive Action where
  | main
  | worker (i : Nat) (now : Nat) (o : FetchOutcome)
  deriving DecidableEq, Repr

/-- One step of the system; `none` when the chosen goroutine cannot move (it is
blocked, has returned, does not exist, or the process has panicked). -/
def step (lib : Lib) (s : State) (a : Action) : Option State :=
  if s.panicked then none
  else
    match a with
    | .main => mainStep lib s
    | .worker i now o =>
      match s.workers.get? i with
      | none => none
      | some pc => workerStep lib i now o pc s

/-- The state after a schedule, if every action of it could be taken. -/
def run (lib : Lib) : State → List Action → Option State
  | s, [] => some s
  | s, a :: rest =>
    match step lib s a with
    | none => none
    | some t => run lib t rest

/-- The states a run of `Start` on crawler `c` can reach. -/
def Reachable (lib : Lib) (fs : FileSystem) (sitemapURLs : List String) (c : Crawler)
    (s : State) : Prop :=
  ∃ acts : List Action, run lib (Start lib fs sitemapURLs c) acts = some s

/-! ## A concrete environment for evaluating runs -/

/-- A reader for references of the form `scheme://host/path?query#fragment` (and
for references without `scheme://`, which get an empty host); on these it gives
the scheme, host, path, query and fragment that `url.Parse` gives. -/
def sampleParse (s : String) : Except String URL :=
  if s.data.any (fun ch => decide (ch.toNat < 32 ∨ ch.toNat = 127)) then
    .error "net/url: invalid control character in URL"
  else
    let beforeFrag := s.data.takeWhile (fun ch => ch != '#')
    let frag := (s.data.dropWhile (fun ch => ch != '#')).drop 1
    let beforeQuery := beforeFrag.takeWhile (fun ch => ch != '?')
    let query := (beforeFrag.dropWhile (fun ch => ch != '?')).drop 1
    let scheme := beforeQuery.takeWhile (fun ch => ch != ':')
    let afterScheme := beforeQuery.dropWhile (fun ch => ch != ':')
    if scheme ≠ [] ∧ [':', '/', '/'] <+: afterScheme then
      let authority := afterScheme.drop 3
      .ok { Scheme := ⟨scheme⟩
            Host := ⟨authority.takeWhile (fun ch => ch != '/')⟩
            Path := ⟨authority.dropWhile (fun ch => ch != '/')⟩
            RawQuery := ⟨query⟩
            Fragment := ⟨frag⟩ }
    else .ok { Path := ⟨beforeQuery⟩, RawQuery := ⟨query⟩, Fragment := ⟨frag⟩ }

/-- The text of a reference read by `sampleParse`. -/
def sampleString (u : URL) : String :=
  (if u.Scheme = "" then "" else u.Scheme ++ ":") ++
  (if u.Host = "" then "" else "//" ++ u.Host) ++ u.Path ++
  (if u.RawQuery = "" then "" else "?" ++ u.RawQuery) ++
  (if u.Fragment = "" then "" else "#" ++ u.Fragment)

/-- A library whose URL functions are the sample ones and whose JSON decoder
knows no document. -/
def sampleLib : Lib :=
  { urlParse := sampleParse
    urlString := sampleString
    jsonUnmarshal := fun _ => .error "unexpected end of JSON input" }

/-- A file system with no file. -/
def emptyFS : FileSystem :=
  { files := fun _ => none, writable := fun _ => true }

/-- The configuration of the command line `-url http://example.com/ -depth d
-workers w -sitemap=b`, the domain being taken from the URL. -/
def sampleConfig (d w : Int) (b : Bool) : Config :=
  { BaseURL := "http://example.com/", AllowedDomain := "example.com", MaxDepth := d,
    MaxWorkers := w, RateLimit := 2, OutputDir := "", UseSitemap := b }

/-- A `200 text/html` answer whose document has one `a` element per href. -/
def htmlPage (hrefs : List String) : FetchOutcome :=
  .response 200 "text/html; charset=utf-8"
    (some (hrefs.map (fun h => { isElement := true, Data := "a", Attr := [("href", h)] })))

/-- The file name built in `NewCrawler`, as characters. -/
def checkpointName (allowedDomain : String) : List Char :=
  "crawler_".data ++ (replaceDots allowedDomain).data ++ "_checkpoint.json".data

/-- The sample configuration with another allowed domain. -/
def configFor (domain : String) : Config :=
  { sampleConfig 2 1 false with AllowedDomain := domain }

/-- The URL has, after a `?` and on the same line, a query parameter whose name
starts with `utm_` (the parameter follows the `?` or a `&`). -/
def HasUtmParam (u : String) : Prop :=
  ∃ pre mid post : List Char, u.data = pre ++ '?' :: (mid ++ ("utm_".data ++ post)) ∧
    '\n' ∉ mid ∧ (mid = [] ∨ mid.getLast? = some '&')

/-- The URLs the exclusion filter is stated for: those ending in `.png` or
`.css`, starting with `mailto:`, `tel:`, `javascript:` or `#`, or having a
`utm_` query parameter. -/
def Excluded (u : String) : Prop :=
  ".png".data <:+ u.data ∨ ".css".data <:+ u.data ∨ "mailto:".data <+: u.data ∨
  "tel:".data <+: u.data ∨ "javascript:".data <+: u.data ∨ "#".data <+: u.data ∨
  HasUtmParam u

/-- The crawler `c` with its `PagesFound` and `ExcludedLinks` counters set. -/
def withFoundExcluded (c : Crawler) (found excluded : Int) : Crawler :=
  { c with stats := { c.stats with PagesFound := found, ExcludedLinks := excluded } }

/-- The fetch of `pageURL` fails: building the request fails (the URL does not
parse), the transport fails, or the status code is not 200. -/
def FetchFails (lib : Lib) (pageURL : String) (o : FetchOutcome) : Prop :=
  (∃ msg, lib.urlParse pageURL = .error msg) ∨ (∃ msg, o = .transportError msg) ∨
  (∃ status contentType doc, o = .response status contentType doc ∧ status ≠ 200)

/-- The transitions of `step`, one constructor for each way a goroutine can
move; `step_sound` shows that every step is one of them. -/
inductive Step (lib : Lib) : State → State → Prop where
  | panic (s : State) : Step lib s { s with panicked := true }
  | sitemapDone (s : State) (h : s.main = .seedSitemap []) :
      Step lib s { s with main := .seedBase }
  | sitemapAccept (s : State) (url : String) (rest : List String)
      (h : s.main = .seedSitemap (url :: rest)) (hv : isVisited s.c url = false)
      (hd : isAllowedDomain lib s.c url = true) :
      Step lib s { s with main := .sitemapCounting url rest }
  | sitemapReject (s : State) (url : String) (rest : List String)
      (h : s.main = .seedSitemap (url :: rest)) :
      Step lib s { s with main := .seedSitemap rest }
  | sitemapCount (s : State) (url : String) (rest : List String)
      (h : s.main = .sitemapCounting url rest) :
      Step lib s { s with c := addActive s.c 1, main := .sitemapSending url rest }
  | sitemapSend (s : State) (url : String) (rest : List String)
      (h : s.main = .sitemapSending url rest) (hc : s.closed = false) :
      Step lib s { s with jobs := s.jobs ++ [{ URL := url, Depth := 1 }],
                          sent := s.sent ++ [(.start, { URL := url, Depth := 1 })],
                          main := .seedSitemap rest }
  | baseAccept (s : State) (h : s.main = .seedBase)
      (hv : isVisited s.c s.c.config.BaseURL = false) :
      Step lib s { s with main := .baseCounting }
  | baseSkip (s : State) (h : s.main = .seedBase) : Step lib s { s with main := .monitoring }
  | baseCount (s : State) (h : s.main = .baseCounting) :
      Step lib s { s with c := addActive s.c 1, main := .baseSending }
  | baseSend (s : State) (h : s.main = .baseSending) (hc : s.closed = false) :
      Step lib s { s with jobs := s.jobs ++ [{ URL := s.c.config.BaseURL, Depth := 0 }],
                          sent := s.sent ++ [(.start, { URL := s.c.config.BaseURL, Depth := 0 })],
                          main := .monitoring }
  | monitorZero (s : State) (h : s.main = .monitoring) (hz : s.c.activeJobs = 0) :
      Step lib s { s with main := .grace }
  | monitorBusy (s : State) (h : s.main = .monitoring) : Step lib s s
  | graceClose (s : State) (h : s.main = .grace) (hz : s.c.activeJobs = 0) :
      Step lib s { s with closed := true, main := .finished }
  | graceResume (s : State) (h : s.main = .grace) : Step lib s { s with main := .monitoring }
  | receive (s : State) (i : Nat) (job : CrawlJob) (rest : List CrawlJob)
      (h : s.workers.get? i = some .idle) (hj : s.jobs = job :: rest) :
      Step lib s ({ s with jobs := rest }.setWorker i (.received job))
  | exit (s : State) (i : Nat) (h : s.workers.get? i = some .idle) (hj : s.jobs = [])
      (hc : s.closed = true) : Step lib s (s.setWorker i .exited)
  | decrement (s : State) (i : Nat) (job : CrawlJob)
      (h : s.workers.get? i = some (.received job)) :
      Step lib s ({ s with c := addActive s.c (-1) }.setWorker i (.checking job))
  | skip (s : State) (i : Nat) (job : CrawlJob) (h : s.workers.get? i = some (.checking job))
      (hs : (shouldSkip lib s.c job.URL).1 = true) :
      Step lib s ({ s with c := (shouldSkip lib s.c job.URL).2 }.setWorker i .idle)
  | pass (s : State) (i : Nat) (job : CrawlJob) (h : s.workers.get? i = some (.checking job))
      (hs : (shouldSkip lib s.c job.URL).1 = false) :
      Step lib s ({ s with c := (shouldSkip lib s.c job.URL).2 }.setWorker i (.marking job))
  | mark (s : State) (i : Nat) (job : CrawlJob) (h : s.workers.get? i = some (.marking job)) :
      Step lib s ({ s with c := markVisited s.c job.URL }.setWorker i (.fetching job))
  | fetch (s : State) (i : Nat) (job : CrawlJob) (now : Nat) (o : FetchOutcome)
      (result : PageResult) (c : Crawler) (h : s.workers.get? i = some (.fetching job))
      (hf : crawlPage lib s.c job.URL job.Depth now o = some (result, c)) :
      Step lib s ({ s with c := c }.setWorker i (.adding job result))
  | addDeeper (s : State) (i : Nat) (job : CrawlJob) (result : PageResult)
      (h : s.workers.get? i = some (.adding job result))
      (hd : job.Depth < s.c.config.MaxDepth) :
      Step lib s ({ s with c := addResult s.c result }.setWorker i (.linking job result.Links))
  | addLeaf (s : State) (i : Nat) (job : CrawlJob) (result : PageResult)
      (h : s.workers.get? i = some (.adding job result))
      (hd : ¬ job.Depth < s.c.config.MaxDepth) :
      Step lib s ({ s with c := addResult s.c result }.setWorker i .idle)
  | linksDone (s : State) (i : Nat) (job : CrawlJob)
      (h : s.workers.get? i = some (.linking job [])) : Step lib s (s.setWorker i .idle)
  | linkAccept (s : State) (i : Nat) (job : CrawlJob) (link : String) (rest : List String)
      (h : s.workers.get? i = some (.linking job (link :: rest)))
      (ha : (acceptLink lib s.c link).1 = true) :
      Step lib s ({ s with c := (acceptLink lib s.c link).2 }.setWorker i
        (.counting job link rest))
  | linkReject (s : State) (i : Nat) (job : CrawlJob) (link : String) (rest : List String)
      (h : s.workers.get? i = some (.linking job (link :: rest)))
      (ha : (acceptLink lib s.c link).1 = false) :
      Step lib s ({ s with c := (acceptLink lib s.c link).2 }.setWorker i (.linking job rest))
  | count (s : State) (i : Nat) (job : CrawlJob) (link : String) (rest : List String)
      (h : s.workers.get? i = some (.counting job link rest)) :
      Step lib s ({ s with c := addActive s.c 1 }.setWorker i (.sending job link rest))
  | workerSend (s : State) (i : Nat) (job : CrawlJob) (link : String) (rest : List String)
      (h : s.workers.get? i = some (.sending job link rest)) (hc : s.closed = false) :
      Step lib s (State.setWorker
        { s with jobs := s.jobs ++ [{ URL := link, Depth := job.Depth + 1 }],
                 sent := s.sent ++ [(Sender.worker i, { URL := link, Depth := job.Depth + 1 })] }
        i (.linking job rest))

/-- The URL a worker has let through `shouldSkip` and is crawling, if any. -/
def WorkerPC.crawling : WorkerPC → Option String
  | .marking job => some job.URL
  | .fetching job => some job.URL
  | .adding _ result => some result.URL
  | _ => none

/-- The link a worker has let through its enqueue condition and is about to
send, if any. -/
def WorkerPC.enqueuing : WorkerPC → Option String
  | .counting _ link _ => some link
  | .sending _ link _ => some link
  | _ => none

/-- The job a worker is processing, if any. -/
def WorkerPC.job : WorkerPC → Option CrawlJob
  | .received job => some job
  | .checking job => some job
  | .marking job => some job
  | .fetching job => some job
  | .adding job _ => some job
  | .linking job _ => some job
  | .counting job _ _ => some job
  | .sending job _ _ => some job
  | _ => none

/-- The URL `Start` has let through its seeding condition and is about to
send, if any; `base` is the base URL. -/
def MainPC.enqueuing (base : String) : MainPC → Option String
  | .sitemapCounting url _ => some url
  | .sitemapSending url _ => some url
  | .baseCounting => some base
  | .baseSending => some base
  | _ => none

/-- No worker is crawling `u` or about to enqueue `u`, no worker has sent a job
for `u`, and the results are `r0` followed by results for other URLs. -/
structure WorkerFree (u : String) (r0 : List PageResult) (s : State) : Prop where
  crawling : ∀ pc ∈ s.workers, pc.crawling ≠ some u
  enqueuing : ∀ pc ∈ s.workers, pc.enqueuing ≠ some u
  sent : ∀ i j, (Sender.worker i, j) ∈ s.sent → j.URL ≠ u
  results : ∃ appended, s.c.results = r0 ++ appended ∧ ∀ r ∈ appended, r.URL ≠ u

/-- The crawler `c'` differs from `c` in its statistics at most, and not in
`ExternalLinks`. -/
def StatsOnly (c c' : Crawler) : Prop :=
  ∃ st : Stats, c' = { c with stats := st } ∧ st.ExternalLinks = c.stats.ExternalLinks

/-- `Start` is not about to enqueue `u` and has sent no job for `u`. -/
structure MainFree (u : String) (s : State) : Prop where
  enqueuing : s.main.enqueuing s.c.config.BaseURL ≠ some u
  sent : ∀ j, (Sender.start, j) ∈ s.sent → j.URL ≠ u

/-- A checkpoint with three visited URLs and two results. -/
def sampleCheckpoint : Checkpoint :=
  { VisitedURLs := ["http://example.com/", "http://example.com/a", "http://example.com/b"]
    Results :=
      [ { URL := "http://example.com/", Title := "Home", StatusCode := 200, Depth := 0,
          Links := ["http://example.com/a", "http://example.com/b"], CrawledAt := 10,
          ContentType := "text/html" },
        { URL := "http://example.com/a", Title := "A", StatusCode := 200, Depth := 1,
          CrawledAt := 11, ContentType := "text/html" } ]
    Stats := { PagesFound := 2, PagesCrawled := 2, StartTime := 9 }
    LastSaved := 12 }

/-- The sample library with a JSON decoder that knows one document: `text` is
the encoding of `ck`. -/
def oneDocLib (ck : Checkpoint) (text : String) : Lib :=
  { sampleLib with
    jsonUnmarshal := fun d =>
      if d = text then .ok ck else .error "invalid character looking for beginning of value" }

/-- A file system whose only file is the checkpoint of `example.com`, holding
`text`. -/
def checkpointFS (text : String) : FileSystem :=
  { files := fun p => if p = checkpointPath "example.com" then some text else none
    writable := fun _ => true }

/-- The sitemap of the resumed run: one visited URL and one new URL. -/
def resumeSitemap : List String := ["http://example.com/a", "http://example.com/c"]

/-- A schedule of the resumed run: `Start` seeds, then the worker crawls `/c`,
whose page links to `/a` and `/d`, and handles both links. -/
def resumeSchedule : List Action :=
  [.main, .main, .main, .main, .main, .main,
   .worker 0 0 (htmlPage []), .worker 0 0 (htmlPage []), .worker 0 0 (htmlPage []),
   .worker 0 0 (htmlPage []), .worker 0 20 (htmlPage ["/a", "/d"]),
   .worker 0 0 (htmlPage []), .worker 0 0 (htmlPage []), .worker 0 0 (htmlPage []),
   .worker 0 0 (htmlPage []), .worker 0 0 (htmlPage [])]

/-- The state the resumed run reaches by `resumeSchedule`. -/
def resumedState : State :=
  (run (oneDocLib sampleCheckpoint "doc")
    (Start (oneDocLib sampleCheckpoint "doc") (checkpointFS "doc") resumeSitemap
      (NewCrawler (sampleConfig 2 1 true) 0)) resumeSchedule).getD
    (Start (oneDocLib sampleCheckpoint "doc") (checkpointFS "doc") resumeSitemap
      (NewCrawler (sampleConfig 2 1 true) 0))

/-- The state after `Start` has seeded a run whose sitemap lists an image and
whose base URL carries a tracking parameter. -/
def seededExcluded : Option State :=
  run sampleLib
    (Start sampleLib emptyFS ["http://example.com/logo.png"]
      (NewCrawler { sampleConfig 2 1 true with BaseURL := "http://example.com/?utm_source=mail" } 0))
    [.main, .main, .main, .main, .main, .main, .main]

/-- A crawler whose pattern table is the table of `NewCrawler` in reverse
order. -/
def reversedTable : Crawler :=
  { NewCrawler (sampleConfig 2 1 true) 0 with excludeRegex := excludePatterns.reverse }

/-- A schedule in which `Start` seeds the sitemap URL and the worker receives
its job and runs `shouldSkip` on it. -/
def droppedImageSchedule : List Action :=
  [.main, .main, .main,
   .worker 0 0 (htmlPage []), .worker 0 0 (htmlPage []), .worker 0 0 (htmlPage [])]

/-- The state reached by `droppedImageSchedule` when the sitemap lists an
image. -/
def droppedImage : State :=
  (run sampleLib
    (Start sampleLib emptyFS ["http://example.com/logo.png"]
      (NewCrawler (sampleConfig 2 1 true) 0)) droppedImageSchedule).getD
    (Start sampleLib emptyFS ["http://example.com/logo.png"]
      (NewCrawler (sampleConfig 2 1 true) 0))

/-- The depth facts a worker's program counter carries: the job in hand has
depth at most `B`, the result in hand has depth at most `B`, and a worker in the
link loop holds a job of depth below `maxDepth`. -/
def WorkerPC.depthOk (B maxDepth : Int) : WorkerPC → Prop
  | .received job => job.Depth ≤ B
  | .checking job => job.Depth ≤ B
  | .marking job => job.Depth ≤ B
  | .fetching job => job.Depth ≤ B
  | .adding _ result => result.Depth ≤ B
  | .linking job _ => job.Depth < maxDepth
  | .counting job _ _ => job.Depth < maxDepth
  | .sending job _ _ => job.Depth < maxDepth
  | _ => True

/-- Whether `Start` is in its loop over the sitemap URLs. -/
def MainPC.inSitemap : MainPC → Bool
  | .seedSitemap _ => true
  | .sitemapCounting _ _ => true
  | .sitemapSending _ _ => true
  | _ => false

/-- The depth invariant of a run for a bound `B`: queued jobs, jobs and results
in hand and appended results have depth at most `B`, and the sitemap loop runs
only when sitemap discovery is on. -/
structure DepthInv (B : Int) (r0 : List PageResult) (s : State) : Prop where
  jobs : ∀ j ∈ s.jobs, j.Depth ≤ B
  workers : ∀ pc ∈ s.workers, pc.depthOk B s.c.config.MaxDepth
  sitemap : s.main.inSitemap = true → s.c.config.UseSitemap = true
  results : ∃ appended, s.c.results = r0 ++ appended ∧ ∀ r ∈ appended, r.Depth ≤ B

/-- A schedule in which `Start` seeds one sitemap URL and the worker crawls
it. -/
def sitemapAtDepthZeroSchedule : List Action :=
  [.main, .main, .main,
   .worker 0 0 (htmlPage []), .worker 0 0 (htmlPage []), .worker 0 0 (htmlPage []),
   .worker 0 0 (htmlPage []), .worker 0 5 (htmlPage ["/y"]), .worker 0 0 (htmlPage [])]

/-- The state in which the worker has crawled a sitemap URL although the
maximum depth is zero. -/
def sitemapAtDepthZero : Option State :=
  run sampleLib
    (Start sampleLib emptyFS ["http://example.com/x"] (NewCrawler (sampleConfig 0 1 true) 0))
    sitemapAtDepthZeroSchedule

/-- The state of `sitemapAtDepthZero`, or the start state if the schedule
cannot be run. -/
def sitemapAtDepthZeroState : State :=
  sitemapAtDepthZero.getD
    (Start sampleLib emptyFS ["http://example.com/x"] (NewCrawler (sampleConfig 0 1 true) 0))

/-- No goroutine holds an enqueue of `u` that already passed its visited check,
and every job sent since `sent0` is for another URL. -/
structure SendFree (u : String) (sent0 : List (Sender × CrawlJob)) (s : State) : Prop where
  workers : ∀ pc ∈ s.workers, pc.enqueuing ≠ some u
  main : s.main.enqueuing s.c.config.BaseURL ≠ some u
  sent : ∃ more, s.sent = sent0 ++ more ∧ ∀ x ∈ more, x.2.URL ≠ u

/-- A schedule in which `Start` seeds the base URL and the single worker crawls
it and handles the two links of its page. -/
def repeatedLinkSchedule : List Action :=
  [.main, .main, .main,
   .worker 0 0 (htmlPage []), .worker 0 0 (htmlPage []), .worker 0 0 (htmlPage []),
   .worker 0 0 (htmlPage []), .worker 0 5 (htmlPage ["/a", "/a"]), .worker 0 0 (htmlPage []),
   .worker 0 0 (htmlPage []), .worker 0 0 (htmlPage []), .worker 0 0 (htmlPage []),
   .worker 0 0 (htmlPage []), .worker 0 0 (htmlPage []), .worker 0 0 (htmlPage [])]

/-- The run of one worker on a base page that links to `/a` twice. -/
def repeatedLink : Option State :=
  run sampleLib (Start sampleLib emptyFS [] (NewCrawler (sampleConfig 2 1 false) 0))
    repeatedLinkSchedule

/-- The state of `repeatedLink` once the worker has gone on to crawl `/a`
(its first job for `/a` is received, checked and marked). -/
def afterFirstA : State :=
  (run sampleLib (Start sampleLib emptyFS [] (NewCrawler (sampleConfig 2 1 false) 0))
    (repeatedLinkSchedule ++
      [.worker 0 0 (htmlPage []), .worker 0 0 (htmlPage []), .worker 0 0 (htmlPage []),
       .worker 0 0 (htmlPage []), .worker 0 0 (htmlPage [])])).getD
    (Start sampleLib emptyFS [] (NewCrawler (sampleConfig 2 1 false) 0))

/-- The rest of the run from `afterFirstA`: the worker crawls `/a`, whose page
links back to `/a` and to `/b`, handles both links, then receives and drops the
second job for `/a`. -/
def afterFirstARest : List Action :=
  [.worker 0 9 (htmlPage ["/a", "/b"]), .worker 0 0 (htmlPage []), .worker 0 0 (htmlPage []),
   .worker 0 0 (htmlPage []), .worker 0 0 (htmlPage []), .worker 0 0 (htmlPage []),
   .worker 0 0 (htmlPage []), .worker 0 0 (htmlPage []), .worker 0 0 (htmlPage []),
   .worker 0 0 (htmlPage [])]

/-- The state at the end of `afterFirstARest`. -/
def afterFirstAEnd : State :=
  (run sampleLib afterFirstA afterFirstARest).getD afterFirstA

/-- A schedule for one worker and no sitemap: `Start` seeds the base URL; the
worker receives the job, decrements `activeJobs`, passes `shouldSkip` and marks
the URL, so that it is about to fetch. -/
def midFetchSchedule : List Action :=
  [.main, .main, .main,
   .worker 0 0 (htmlPage []), .worker 0 0 (htmlPage []), .worker 0 0 (htmlPage []),
   .worker 0 0 (htmlPage [])]

/-- The state in which the only job is being fetched. -/
def midFetch : Option State :=
  run sampleLib (Start sampleLib emptyFS [] (NewCrawler (sampleConfig 2 1 false) 0))
    midFetchSchedule

/-- The run continued: the monitor loads `activeJobs` twice during the fetch
and closes the channel; the fetch then returns a page that links to `/a`, and
the worker adds the result, accepts the link, counts it and sends it. -/
def closedDuringFetch : Option State :=
  run sampleLib (Start sampleLib emptyFS [] (NewCrawler (sampleConfig 2 1 false) 0))
    (midFetchSchedule ++
      [.main, .main,
       .worker 0 5 (htmlPage ["/a"]), .worker 0 0 (htmlPage []), .worker 0 0 (htmlPage []),
       .worker 0 0 (htmlPage []), .worker 0 0 (htmlPage [])])

/-- A schedule for two workers when the sitemap lists the base URL: `Start`
enqueues the URL twice; each worker receives one of the jobs, and both run
`shouldSkip` before either marks the URL visited. -/
def racingSchedule : List Action :=
  [.main, .main, .main, .main, .main, .main, .main,
   .worker 0 0 (htmlPage []), .worker 1 0 (htmlPage []),
   .worker 0 0 (htmlPage []), .worker 1 0 (htmlPage []),
   .worker 0 0 (htmlPage []), .worker 1 0 (htmlPage []),
   .worker 0 0 (htmlPage []), .worker 1 0 (htmlPage []),
   .worker 0 5 (htmlPage []), .worker 1 6 (htmlPage []),
   .worker 0 0 (htmlPage []), .worker 1 0 (htmlPage []),
   .worker 0 0 (htmlPage []), .worker 1 0 (htmlPage []),
   .main, .main,
   .worker 0 0 (htmlPage []), .worker 1 0 (htmlPage [])]

/-- The end of the run of two workers on a sitemap that lists the base URL:
the monitor has closed the channel and both workers have returned. -/
def racingRun : Option State :=
  run sampleLib
    (Start sampleLib emptyFS ["http://example.com/"] (NewCrawler (sampleConfig 2 2 true) 0))
    racingSchedule

/-- The schedule of the three-link scenario: `Start` seeds the base URL and
the worker crawls it and handles the links of its page. -/
def threeLinksSchedule : List Action :=
  [.main, .main, .main,
   .worker 0 0 (htmlPage []), .worker 0 0 (htmlPage []), .worker 0 0 (htmlPage []),
   .worker 0 0 (htmlPage []),
   .worker 0 5 (htmlPage ["http://example.com/a", "http://other.com/b",
     "http://example.com/c.png"]),
   .worker 0 0 (htmlPage []), .worker 0 0 (htmlPage []), .worker 0 0 (htmlPage []),
   .worker 0 0 (htmlPage []), .worker 0 0 (htmlPage []), .worker 0 0 (htmlPage [])]

/-- The scenario: seed `http://example.com/` at depth 0, domain `example.com`,
a page that links to `http://example.com/a`, `http://other.com/b` and
`http://example.com/c.png`; the state once the worker is done with the page. -/
def threeLinks : Option State :=
  run sampleLib (Start sampleLib emptyFS [] (NewCrawler (sampleConfig 2 1 false) 0))
    threeLinksSchedule

/-- Whether a worker holds a page result that it has not added yet. -/
def WorkerPC.isAdding : WorkerPC → Bool
  | .adding _ _ => true
  | _ => false

/-- The number of workers between `crawlPage` and `addResult`. -/
def addingCount (workers : List WorkerPC) : Int :=
  (workers.countP WorkerPC.isAdding : Nat)

/-- The counters match the results: `PagesCrawled + Errors` has grown since
`s0` by the number of results appended since then plus the number of workers
that hold a result not added yet. -/
def Accounted (s0 s : State) : Prop :=
  s.c.stats.PagesCrawled + s.c.stats.Errors + s0.c.results.length
    = s0.c.stats.PagesCrawled + s0.c.stats.Errors + s.c.results.length + addingCount s.workers

/-- What the program counter of the only worker tells about the URL in hand:
not visited before the mark; visited and without a result after it. -/
def WorkerPC.soloOk (visited done : List String) : WorkerPC → Prop
  | .marking job => job.URL ∉ visited
  | .fetching job => job.URL ∈ visited ∧ job.URL ∉ done
  | .adding _ result => result.URL ∈ visited ∧ result.URL ∉ done
  | _ => True

/-- The invariant of a run with a single worker: the results appended to `r0`
are for pairwise different, visited URLs, and the worker's program counter
agrees with that. -/
def SoloInv (r0 : List PageResult) (s : State) : Prop :=
  ∃ pc appended, s.workers = [pc] ∧ s.c.results = r0 ++ appended ∧
    (appended.map (fun r => r.URL)).Nodup ∧ (∀ r ∈ appended, r.URL ∈ s.c.visited) ∧
    pc.soloOk s.c.visited (appended.map (fun r => r.URL))

/-- Whether a worker holds one unit of `activeJobs` outside the queue: a job
received and not yet subtracted, or a child job added and not yet sent. -/
def WorkerPC.holdsCount : WorkerPC → Bool
  | .received _ => true
  | .sending _ _ _ => true
  | _ => false

/-- Whether `Start` holds one unit of `activeJobs` outside the queue: a seed
added and not yet sent. -/
def MainPC.holdsCount : MainPC → Bool
  | .sitemapSending _ _ => true
  | .baseSending => true
  | _ => false

/-- What `activeJobs` counts in the code: its value `a0` at the start, plus the
queued jobs, plus the units held by a goroutine between its atomic add and its
channel operation. Jobs being checked, fetched or expanded are not in it. -/
def CountsQueue (a0 : Int) (s : State) : Prop :=
  s.c.activeJobs = a0 + s.jobs.length +
    ((s.workers.countP WorkerPC.holdsCount : Nat) : Int) + (if s.main.holdsCount then 1 else 0)

/-! ## The checkpoint store on byte strings

A Go string is a sequence of bytes and need not be valid UTF-8; a Lean `String`
is a sequence of Unicode characters, so the definitions above cover the Go
strings that are valid UTF-8. `encoding/json` treats the two kinds differently,
so `SaveCheckpoint` and `LoadCheckpoint` are embedded here over byte strings. -/

/-- A byte. -/
abbrev Byte := Fin 256

/-- A Go string: any sequence of bytes, valid UTF-8 or not. -/
abbrev GoString := List Byte

/-- Whether `lo <= b <= hi`. -/
def inRange (b : Byte) (lo hi : Nat) : Bool :=
  decide (lo ≤ b.val ∧ b.val ≤ hi)

/-- The width that `utf8.DecodeRuneInString` reports for a well-formed encoding
at the head of the string (1 to 4), or 0 where it reports `RuneError` with
width 1: the head byte starts no well-formed encoding. The accepted ranges are
those of the Go package `unicode/utf8` (no overlong forms, no surrogates, nothing
above U+10FFFF). -/
def runeLen : GoString → Nat
  | [] => 0
  | b0 :: rest =>
    if b0.val < 0x80 then 1
    else
      match rest with
      | [] => 0
      | b1 :: r1 =>
        if inRange b0 0xC2 0xDF then (if inRange b1 0x80 0xBF then 2 else 0)
        else
          match r1 with
          | [] => 0
          | b2 :: r2 =>
            if inRange b0 0xE0 0xEF then
              (if (if b0.val = 0xE0 then inRange b1 0xA0 0xBF
                   else if b0.val = 0xED then inRange b1 0x80 0x9F
                   else inRange b1 0x80 0xBF) && inRange b2 0x80 0xBF then 3 else 0)
            else
              match r2 with
              | [] => 0
              | b3 :: _ =>
                if inRange b0 0xF0 0xF4 then
                  (if (if b0.val = 0xF0 then inRange b1 0x90 0xBF
                       else if b0.val = 0xF4 then inRange b1 0x80 0x8F
                       else inRange b1 0x80 0xBF) && inRange b2 0x80 0xBF
                      && inRange b3 0x80 0xBF then 4 else 0)
                else 0

/-- The UTF-8 encoding of U+FFFD, the replacement character. -/
def replacementChar : GoString := [0xEF, 0xBF, 0xBD]

/-- The coercion of `coerceUTF8` with `fuel` decoding steps left. -/
def coerceFuel : Nat → GoString → GoString
  | 0, _ => []
  | _ + 1, [] => []
  | fuel + 1, b :: rest =>
    match runeLen (b :: rest) with
    | 0 => replacementChar ++ coerceFuel fuel rest
    | k + 1 => (b :: rest).take (k + 1) ++ coerceFuel fuel ((b :: rest).drop (k + 1))

/-- What a string is after `json.Marshal` and `json.Unmarshal`: the encoder
walks the string with `utf8.DecodeRuneInString` and writes the escape `\ufffd`
for every byte that starts no well-formed encoding, so each such byte comes back
as the three bytes of U+FFFD; well-formed encodings come back as they were. One
decoding step consumes at least one byte, so the length is fuel enough. -/
def coerceUTF8 (s : GoString) : GoString :=
  coerceFuel s.length s

/-- The validity test of `validUTF8` with `fuel` decoding steps left. -/
def validFuel : Nat → GoString → Bool
  | 0, s => s.isEmpty
  | _ + 1, [] => true
  | fuel + 1, b :: rest =>
    match runeLen (b :: rest) with
    | 0 => false
    | k + 1 => validFuel fuel ((b :: rest).drop (k + 1))

/-- The Go function `utf8.ValidString`. -/
def validUTF8 (s : GoString) : Bool :=
  validFuel s.length s

/-- The bytes of a string of ASCII characters. -/
def ascii (s : String) : GoString :=
  s.data.map (fun ch => Fin.ofNat ch.toNat)

namespace Bytes

/-- The Go struct `PageResult`, its strings as bytes. -/
structure PageResult where
  URL : GoString := []
  Title : GoString := []
  StatusCode : Int := 0
  Depth : Int := 0
  Links : List GoString := []
  Error : GoString := []
  CrawledAt : Nat := 0
  ContentType : GoString := []
  deriving DecidableEq, Repr

/-- The Go struct `Checkpoint`, its strings as bytes. -/
structure Checkpoint where
  VisitedURLs : List GoString
  Results : List PageResult
  Stats : Stats
  LastSaved : Nat
  deriving DecidableEq, Repr

/-- The fields of the Go struct `Crawler` that the checkpoint store reads or
writes, its strings as bytes. `visited` lists the keys of the `sync.Map`. -/
structure Crawler where
  config : Config
  visited : List GoString := []
  results : List PageResult := []
  stats : Stats := {}
  checkpointFile : String
  deriving DecidableEq, Repr

/-- The Go function `NewCrawler`, for the fields of `Bytes.Crawler`. -/
def NewCrawler (config : Config) (now : Nat) : Crawler :=
  { config := config
    stats := { StartTime := now }
    checkpointFile := checkpointPath config.AllowedDomain }

/-- A page result after `json.Marshal` and `json.Unmarshal`: every string
coerced to valid UTF-8, the numbers and the time as they were. -/
def PageResult.coerce (r : PageResult) : PageResult :=
  { r with
    URL := coerceUTF8 r.URL
    Title := coerceUTF8 r.Title
    Links := r.Links.map coerceUTF8
    Error := coerceUTF8 r.Error
    ContentType := coerceUTF8 r.ContentType }

/-- A checkpoint after `json.Marshal` and `json.Unmarshal`. -/
def Checkpoint.coerce (ck : Checkpoint) : Checkpoint :=
  { ck with
    VisitedURLs := ck.VisitedURLs.map coerceUTF8
    Results := ck.Results.map PageResult.coerce }

/-- Whether every string of a page result is valid UTF-8. -/
def PageResult.valid (r : PageResult) : Bool :=
  validUTF8 r.URL && validUTF8 r.Title && r.Links.all validUTF8 && validUTF8 r.Error &&
    validUTF8 r.ContentType

/-- Whether every string of the crawler state is valid UTF-8. -/
def Crawler.valid (c : Crawler) : Bool :=
  c.visited.all validUTF8 && c.results.all PageResult.valid

/-- The two calls of `encoding/json` that the checkpoint store makes: the text
`json.Marshal` writes for a checkpoint (or its error), and the checkpoint
`json.Unmarshal` reads from a text (or its error). -/
structure JSON where
  Marshal : Checkpoint → Except String String
  Unmarshal : String → Except String Checkpoint

/-- The behaviour of `encoding/json` on the checkpoint `ck`: from the text that
`Marshal` writes for `ck`, `Unmarshal` reads `ck` with every string coerced to
valid UTF-8. -/
def JSON.ReadsBack (json : JSON) (ck : Checkpoint) : Prop :=
  ∀ data, json.Marshal ck = .ok data → json.Unmarshal data = .ok ck.coerce

/-- The Go call `c.visited.Store(url, true)` on the key list. -/
def storeVisited (visited : List GoString) (url : GoString) : List GoString :=
  if url ∈ visited then visited else visited ++ [url]

/-- The Go method `Crawler.LoadCheckpoint`: the returned flag and the crawler
after the call. A path without readable content stands for both a missing file
and a failed read. -/
def LoadCheckpoint (json : JSON) (fs : FileSystem) (c : Crawler) : Bool × Crawler :=
  match fs.files c.checkpointFile with
  | none => (false, c)
  | some data =>
    match json.Unmarshal data with
    | .error _ => (false, c)
    | .ok checkpoint =>
      (true, { c with
        visited := checkpoint.VisitedURLs.foldl storeVisited c.visited
        results := checkpoint.Results
        stats := checkpoint.Stats })

/-- The `Checkpoint` value built in `SaveCheckpoint`: the keys of the visited
map, the results, the stats and the time of saving. -/
def checkpointOf (c : Crawler) (now : Nat) : Checkpoint :=
  { VisitedURLs := c.visited, Results := c.results, Stats := c.stats, LastSaved := now }

/-- The Go method `Crawler.SaveCheckpoint`: the error, or the file system after
the write; `now` is the value of `time.Now()`. -/
def SaveCheckpoint (json : JSON) (fs : FileSystem) (c : Crawler) (now : Nat) :
    Except String FileSystem :=
  match json.Marshal (checkpointOf c now) with
  | .error err => .error err
  | .ok data =>
    if fs.writable c.checkpointFile then .ok (fs.write c.checkpointFile data)
    else .error "open: permission denied"

/-- `SaveCheckpoint` on `c`, then `LoadCheckpoint` on a fresh crawler for
`config`: the flag and the crawler after the load, or `none` when the save
returns an error. -/
def saveThenLoad (json : JSON) (fs : FileSystem) (c : Crawler) (now : Nat) (config : Config)
    (now' : Nat) : Option (Bool × Crawler) :=
  match SaveCheckpoint json fs c now with
  | .error _ => none
  | .ok fs' => some (LoadCheckpoint json fs' (NewCrawler config now'))

/-- An `encoding/json` that knows one checkpoint: `text` is what `json.Marshal`
writes for `ck`, and `json.Unmarshal` reads from it `ck` with its strings coerced
to valid UTF-8. -/
def jsonFor (ck : Checkpoint) (text : String) : JSON :=
  { Marshal := fun x => if x = ck then .ok text else .error "json: unsupported value"
    Unmarshal := fun d =>
      if d = text then .ok ck.coerce
      else .error "invalid character looking for beginning of value" }

/-- The base URL `http://example.com/` followed by the byte `0xFF`, which is not
valid UTF-8. -/
def rawURL : GoString := ascii "http://example.com/" ++ [0xFF]

/-- The state of a crawler that has crawled `rawURL` and nothing else. -/
def rawCrawler : Crawler :=
  { NewCrawler (sampleConfig 2 1 false) 9 with
    visited := [rawURL]
    results := [{ URL := rawURL, StatusCode := 200, CrawledAt := 10,
                  ContentType := ascii "text/html" }]
    stats := { PagesCrawled := 1, StartTime := 9 } }

/-- The text `json.Marshal` writes for the checkpoint of `rawCrawler` saved at
time 12 (times as seconds after the epoch): the byte `0xFF` is written as the
escape for U+FFFD. -/
def rawText : String :=
  "\x7b\"visited_urls\":[\"http://example.com/\\ufffd\"],\"results\":[\x7b\"url\":" ++
  "\"http://example.com/\\ufffd\",\"title\":\"\",\"status_code\":200,\"depth\":0," ++
  "\"links\":null,\"crawled_at\":\"1970-01-01T00:00:10Z\",\"content_type\":\"text/html\"\x7d]," ++
  "\"stats\":\x7b\"pages_found\":0,\"pages_crawled\":1,\"external_links\":0," ++
  "\"excluded_links\":0,\"errors\":0,\"start_time\":\"1970-01-01T00:00:09Z\"\x7d," ++
  "\"last_saved\":\"1970-01-01T00:00:12Z\"\x7d"

/-- A file system with no file, on which every write fails. -/
def readOnlyFS : FileSystem :=
  { files := fun _ => none, writable := fun _ => false }

/-- The state of a crawler that has crawled `http://example.com/café` (the `é`
as the two bytes `0xC3 0xA9`); all its strings are valid UTF-8. -/
def plainCrawler : Crawler :=
  { NewCrawler (sampleConfig 2 1 false) 9 with
    visited := [ascii "http://example.com/caf" ++ [0xC3, 0xA9]]
    results := [{ URL := ascii "http://example.com/caf" ++ [0xC3, 0xA9], StatusCode := 200,
                  Title := ascii "Caf" ++ [0xC3, 0xA9], CrawledAt := 10,
                  ContentType := ascii "text/html" }]
    stats := { PagesCrawled := 1, StartTime := 9 } }

end Bytes

/-! # Theorems -/

/-! ## Checkpoint file name -/

theorem splitSlash_of_not_mem (l : List Char) (h : '/' ∉ l) : splitSlash l = [l] := by
  induction l with
  | nil => rfl
  | cons c cs ih =>
    have hc : c ≠ '/' := fun e => h (by simp [e])
    have hcs : '/' ∉ cs := fun e => h (by simp [e])
    simp [splitSlash, ih hcs, hc]

theorem checkpointName_no_slash (d : String) (h : '/' ∉ d.data) : '/' ∉ checkpointName d := by
  simp only [checkpointName, replaceDots, List.mem_append, not_or]
  refine ⟨⟨by decide, ?_⟩, by decide⟩
  intro hm
  rw [List.mem_map] at hm
  obtain ⟨c, hc, he⟩ := hm
  by_cases hd : c = '.'
  · simp [hd] at he
  · simp [hd] at he
    exact h (he ▸ hc)

theorem filepathClean_tmp (name : List Char) (hns : '/' ∉ name) (h0 : name ≠ [])
    (h1 : name ≠ ['.']) (h2 : name ≠ ['.', '.']) :
    filepathClean ⟨'/' :: 't' :: 'm' :: 'p' :: '/' :: name⟩
      = ⟨'/' :: 't' :: 'm' :: 'p' :: '/' :: name⟩ := by
  have hsplit := splitSlash_of_not_mem _ hns
  simp [filepathClean, splitSlash, hsplit, cleanPush, h0, h1, h2, List.intercalate]

theorem checkpointName_eq_cons (d : String) :
    checkpointName d = 'c' :: ("rawler_".data ++ (replaceDots d).data ++ "_checkpoint.json".data) := by
  simp [checkpointName]

theorem checkpointPath_eq (d : String) (h : '/' ∉ d.data) :
    checkpointPath d = ⟨"/tmp/".data ++ checkpointName d⟩ := by
  have hns := checkpointName_no_slash d h
  have hne : ("crawler_" ++ replaceDots d ++ "_checkpoint.json" : String) ≠ "" := by
    intro e
    have := congrArg String.data e
    simp at this
  have hname : ("crawler_" ++ replaceDots d ++ "_checkpoint.json" : String).data
      = checkpointName d := by
    simp [checkpointName]
  have hc := checkpointName_eq_cons d
  have e := filepathClean_tmp (checkpointName d) hns (by rw [hc]; simp) (by rw [hc]; simp)
    (by rw [hc]; simp)
  unfold checkpointPath filepathJoin
  simp only [List.filter, hne, decide_True, decide_False, ne_eq, not_false_eq_true]
  have h1 : decide (¬("/tmp" : String) = "") = true := by decide
  simp only [h1, decide_not, Bool.not_eq_true', decide_eq_false_iff_not, hne, not_false_eq_true,
    Bool.not_false, List.map, List.intercalate, List.intersperse, List.flatten, hname]
  simpa using e

theorem replaceDots_injOn (a b : List Char) (ha : '_' ∉ a) (hb : '_' ∉ b)
    (h : a.map (fun c => if c = '.' then '_' else c) = b.map (fun c => if c = '.' then '_' else c)) :
    a = b := by
  induction a generalizing b with
  | nil => cases b with
    | nil => rfl
    | cons y ys => simp at h
  | cons x xs ih =>
    cases b with
    | nil => simp at h
    | cons y ys =>
      simp only [List.map_cons, List.cons.injEq] at h
      simp only [List.mem_cons, not_or] at ha hb
      have hxy : x = y := by
        have h1 := h.1
        by_cases hx : x = '.' <;> by_cases hy : y = '.'
        · rw [hx, hy]
        · simp [hx, hy] at h1; exact absurd h1 hb.1
        · simp [hx, hy] at h1; exact absurd h1.symm ha.1
        · simpa [hx, hy] using h1
      rw [hxy, ih ys ha.2 hb.2 h.2]

theorem checkpointPath_inj (d₁ d₂ : String) (h₁ : '_' ∉ d₁.data ∧ '/' ∉ d₁.data)
    (h₂ : '_' ∉ d₂.data ∧ '/' ∉ d₂.data) (h : checkpointPath d₁ = checkpointPath d₂) : d₁ = d₂ := by
  rw [checkpointPath_eq d₁ h₁.2, checkpointPath_eq d₂ h₂.2] at h
  have h' := congrArg String.data h
  simp only [checkpointName, List.append_assoc, List.append_cancel_left_eq] at h'
  have h'' := List.append_cancel_right h'
  simp only [replaceDots] at h''
  exact String.ext (replaceDots_injOn _ _ h₁.1 h₂.1 h'')

/-- C9 (counterexample): the allowed domains `shop.example.com` and
`shop_example.com` differ, yet `NewCrawler` gives both crawlers the same
checkpoint file, so the file name is not injective in the domain. -/
theorem C9_checkpointFile_collision :
    ¬ (∀ (cfg₁ cfg₂ : Config) (now₁ now₂ : Nat), cfg₁.AllowedDomain ≠ cfg₂.AllowedDomain →
        (NewCrawler cfg₁ now₁).checkpointFile ≠ (NewCrawler cfg₂ now₂).checkpointFile) := by
  intro h
  exact h (configFor "shop.example.com") (configFor "shop_example.com") 0 0 (by decide)
    (by decide)

/-- C9 (amended): the checkpoint file of `NewCrawler` depends on the allowed
domain only, and two different allowed domains that contain neither an
underscore nor a slash get different checkpoint files. -/
theorem C9_checkpointFile_injective_on_plain_domains (cfg₁ cfg₂ : Config) (now₁ now₂ : Nat)
    (h₁ : '_' ∉ cfg₁.AllowedDomain.data ∧ '/' ∉ cfg₁.AllowedDomain.data)
    (h₂ : '_' ∉ cfg₂.AllowedDomain.data ∧ '/' ∉ cfg₂.AllowedDomain.data) :
    ((NewCrawler cfg₁ now₁).checkpointFile = (NewCrawler cfg₂ now₂).checkpointFile ↔
      cfg₁.AllowedDomain = cfg₂.AllowedDomain) := by
  constructor
  · intro h
    exact checkpointPath_inj _ _ h₁ h₂ h
  · intro h
    simp [NewCrawler, h]

/-- C9 (witness): the domains `example.com` and `example.org`. -/
theorem C9_checkpointFile_injective_on_plain_domains_witness :
    ('_' ∉ (configFor "example.com").AllowedDomain.data ∧
      '/' ∉ (configFor "example.com").AllowedDomain.data) ∧
    ('_' ∉ (configFor "example.org").AllowedDomain.data ∧
      '/' ∉ (configFor "example.org").AllowedDomain.data) ∧
    ((NewCrawler (configFor "example.com") 0).checkpointFile
        = (NewCrawler (configFor "example.org") 7).checkpointFile ↔
      (configFor "example.com").AllowedDomain = (configFor "example.org").AllowedDomain) :=
  ⟨by decide, by decide,
    C9_checkpointFile_injective_on_plain_domains (configFor "example.com")
      (configFor "example.org") 0 7 (by decide) (by decide)⟩

/-! ## The visited set -/

theorem mem_storeVisited (v : List String) (x u : String) :
    u ∈ storeVisited v x ↔ u ∈ v ∨ u = x := by
  unfold storeVisited
  split
  · constructor
    · exact Or.inl
    · rintro (h | h)
      · exact h
      · subst h; assumption
  · simp

theorem mem_foldl_storeVisited (l v : List String) (u : String) :
    u ∈ l.foldl storeVisited v ↔ u ∈ v ∨ u ∈ l := by
  induction l generalizing v with
  | nil => simp
  | cons x xs ih =>
    simp only [List.foldl_cons, ih, mem_storeVisited, List.mem_cons]
    tauto

/-! ## Exclusion patterns -/

theorem shouldExcludeLoop_of_match (c : Crawler) (u : String) (table : List Regexp)
    (h : ∃ re ∈ table, re.MatchString u = true) :
    shouldExcludeLoop c u table = (true, addExcluded c) := by
  induction table with
  | nil => simp at h
  | cons re rest ih =>
    unfold shouldExcludeLoop
    by_cases hm : re.MatchString u = true
    · simp [hm]
    · simp only [hm, if_false, Bool.false_eq_true]
      apply ih
      obtain ⟨r, hr, hru⟩ := h
      rcases List.mem_cons.mp hr with e | e
      · exact absurd (e ▸ hru) hm
      · exact ⟨r, e, hru⟩

theorem shouldExcludeLoop_of_no_match (c : Crawler) (u : String) (table : List Regexp)
    (h : ∀ re ∈ table, re.MatchString u = false) :
    shouldExcludeLoop c u table = (false, c) := by
  induction table with
  | nil => rfl
  | cons re rest ih =>
    unfold shouldExcludeLoop
    have h1 := h re (by simp)
    simp only [h1, if_false, Bool.false_eq_true]
    exact ih (fun r hr => h r (by simp [hr]))

/-- The answer and the effect of `shouldExclude` do not depend on the order of
the pattern table. -/
theorem shouldExcludeLoop_perm (c : Crawler) (u : String) (t₁ t₂ : List Regexp)
    (hp : t₁.Perm t₂) : shouldExcludeLoop c u t₁ = shouldExcludeLoop c u t₂ := by
  by_cases h : ∃ re ∈ t₁, re.MatchString u = true
  · have h' : ∃ re ∈ t₂, re.MatchString u = true := by
      obtain ⟨r, hr, hru⟩ := h
      exact ⟨r, hp.mem_iff.mp hr, hru⟩
    rw [shouldExcludeLoop_of_match c u t₁ h, shouldExcludeLoop_of_match c u t₂ h']
  · have h1 : ∀ re ∈ t₁, re.MatchString u = false := by
      intro r hr
      by_contra hne
      exact h ⟨r, hr, by simpa using hne⟩
    have h2 : ∀ re ∈ t₂, re.MatchString u = false := fun r hr => h1 r (hp.mem_iff.mpr hr)
    rw [shouldExcludeLoop_of_no_match c u t₁ h1, shouldExcludeLoop_of_no_match c u t₂ h2]

theorem takeWhile_append_of_all (p : Char → Bool) (a b : List Char) (h : ∀ x ∈ a, p x = true) :
    (a ++ b).takeWhile p = a ++ b.takeWhile p := by
  induction a with
  | nil => rfl
  | cons x xs ih =>
    have hx := h x (by simp)
    simp [List.takeWhile, hx, ih (fun y hy => h y (by simp [hy]))]

theorem matchQueryThen_utm (pre mid post : List Char) (hmid : '\n' ∉ mid) :
    matchQueryThen "utm_".data (pre ++ '?' :: (mid ++ ("utm_".data ++ post))) = true := by
  induction pre with
  | nil =>
    have hall : ∀ x ∈ mid, (x != '\n') = true := by
      intro x hx
      simp only [bne_iff_ne, ne_eq]
      intro e
      exact hmid (e ▸ hx)
    have hw : ("utm_".data ++ post).takeWhile (fun d => d != '\n')
        = "utm_".data ++ post.takeWhile (fun d => d != '\n') :=
      takeWhile_append_of_all _ _ _ (by decide)
    simp only [List.nil_append, matchQueryThen, beq_self_eq_true, Bool.true_and,
      takeWhile_append_of_all _ mid _ hall, hw, Bool.or_eq_true, decide_eq_true_eq]
    left
    exact ⟨mid, post.takeWhile (fun d => d != '\n'), by simp⟩
  | cons x xs ih =>
    show matchQueryThen "utm_".data (x :: (xs ++ '?' :: (mid ++ ("utm_".data ++ post)))) = true
    unfold matchQueryThen
    rw [ih, Bool.or_true]

theorem matches_of_excluded (u : String) (h : Excluded u) :
    ∃ re ∈ excludePatterns, re.MatchString u = true := by
  rcases h with h | h | h | h | h | h | h
  · refine ⟨_, List.mem_cons_self _ _, ?_⟩
    simp only [Regexp.MatchString, List.any_eq_true, decide_eq_true_eq]
    exact ⟨"png", by decide, h⟩
  · refine ⟨.dotExtAtEnd ["css", "js", "woff", "woff2", "ttf", "eot", "otf"], by decide, ?_⟩
    simp only [Regexp.MatchString, List.any_eq_true, decide_eq_true_eq]
    exact ⟨"css", by decide, h⟩
  · exact ⟨.atStart "mailto:", by decide, by simpa [Regexp.MatchString] using h⟩
  · exact ⟨.atStart "tel:", by decide, by simpa [Regexp.MatchString] using h⟩
  · exact ⟨.atStart "javascript:", by decide, by simpa [Regexp.MatchString] using h⟩
  · exact ⟨.atStart "#", by decide, by simpa [Regexp.MatchString] using h⟩
  · obtain ⟨pre, mid, post, hu, hnl, _⟩ := h
    refine ⟨.queryThen "utm_", by decide, ?_⟩
    simp only [Regexp.MatchString, hu]
    exact matchQueryThen_utm pre mid post hnl

theorem shouldExclude_of_excluded (c : Crawler) (u : String) (h : Excluded u)
    (ht : c.excludeRegex.Perm excludePatterns) : shouldExclude c u = (true, addExcluded c) := by
  unfold shouldExclude
  rw [shouldExcludeLoop_perm c u _ _ ht]
  exact shouldExcludeLoop_of_match c u _ (matches_of_excluded u h)

/-! ## `crawlPage` -/

theorem withFoundExcluded_self (c : Crawler) :
    withFoundExcluded c c.stats.PagesFound c.stats.ExcludedLinks = c := rfl

theorem shouldExcludeLoop_cases (c : Crawler) (u : String) (table : List Regexp) :
    shouldExcludeLoop c u table = (true, addExcluded c) ∨
      shouldExcludeLoop c u table = (false, c) := by
  induction table with
  | nil => exact Or.inr rfl
  | cons re rest ih =>
    unfold shouldExcludeLoop
    split
    · exact Or.inl rfl
    · exact ih

theorem shouldExclude_cases (c : Crawler) (u : String) :
    shouldExclude c u = (true, addExcluded c) ∨ shouldExclude c u = (false, c) :=
  shouldExcludeLoop_cases c u c.excludeRegex

theorem shouldExclude_frame (c : Crawler) (u : String) :
    ∃ f e, (shouldExclude c u).2 = withFoundExcluded c f e := by
  rcases shouldExclude_cases c u with h | h
  · exact ⟨c.stats.PagesFound, c.stats.ExcludedLinks + 1, by rw [h]; rfl⟩
  · exact ⟨c.stats.PagesFound, c.stats.ExcludedLinks, by rw [h]; rfl⟩

theorem normalizeURL_isSome (lib : Lib) (href baseURL : String) (b : URL)
    (hb : lib.urlParse baseURL = .ok b) : ∃ l, normalizeURL lib href baseURL = some l := by
  unfold normalizeURL
  cases lib.urlParse href with
  | error e => exact ⟨_, rfl⟩
  | ok h =>
    simp only [hb]
    split
    · exact ⟨_, rfl⟩
    · exact ⟨_, rfl⟩

theorem extractLinksLoop_spec (lib : Lib) (baseURL : String) (b : URL)
    (hb : lib.urlParse baseURL = .ok b) (hrefs : List String) :
    ∀ (links : List String) (c : Crawler), ∃ links' f e,
      extractLinksLoop lib baseURL hrefs links c = some (links', withFoundExcluded c f e) := by
  induction hrefs with
  | nil => intro links c; exact ⟨links, _, _, by rw [withFoundExcluded_self]; rfl⟩
  | cons href rest ih =>
    intro links c
    obtain ⟨l, hl⟩ := normalizeURL_isSome lib href baseURL b hb
    unfold extractLinksLoop
    simp only [hl]
    obtain ⟨f, e, hfe⟩ := shouldExclude_frame c l
    split
    · exact ih links c
    · split
      · obtain ⟨links', f', e', h'⟩ := ih links (shouldExclude c l).2
        exact ⟨links', f', e', by rw [h', hfe]; rfl⟩
      · obtain ⟨links', f', e', h'⟩ := ih (links ++ [l]) (addFound (shouldExclude c l).2)
        exact ⟨links', f', e', by rw [h', hfe]; rfl⟩

theorem http_status_ne_empty (status : Int) : "HTTP " ++ toString status ≠ "" := by
  intro e
  have := congrArg String.data e
  simp at this

/-- Every call of `crawlPage` returns: the result carries the URL and depth it
was called with; when the fetch fails the error text is set and only `Errors`
grows, by one; otherwise the error text is empty, `PagesCrawled` grows by one
and `Errors` is unchanged. -/
theorem crawlPage_spec (lib : Lib) (c : Crawler) (pageURL : String) (depth : Int) (now : Nat)
    (o : FetchOutcome)
    (hlib : ∀ s msg, lib.urlParse s = .error msg → msg ≠ "")
    (ho : ∀ msg, o = .transportError msg → msg ≠ "") :
    ∃ r c', crawlPage lib c pageURL depth now o = some (r, c') ∧
      r.URL = pageURL ∧ r.Depth = depth ∧
      ((FetchFails lib pageURL o ∧ r.Error ≠ "" ∧ c' = addError c) ∨
       (¬ FetchFails lib pageURL o ∧ r.Error = "" ∧
          ∃ f e, c' = withFoundExcluded (addCrawled c) f e)) := by
  unfold crawlPage
  cases hp : lib.urlParse pageURL with
  | error msg =>
    exact ⟨_, _, rfl, rfl, rfl, Or.inl ⟨Or.inl ⟨msg, hp⟩, hlib _ _ hp, rfl⟩⟩
  | ok b =>
    cases o with
    | transportError msg =>
      exact ⟨_, _, rfl, rfl, rfl, Or.inl ⟨Or.inr (Or.inl ⟨msg, rfl⟩), ho _ rfl, rfl⟩⟩
    | response status contentType doc =>
      by_cases hs : status = 200
      · have hnf : ¬ FetchFails lib pageURL (.response status contentType doc) := by
          rintro (⟨m, hm⟩ | ⟨m, hm⟩ | ⟨st, ct, d, hm, hne⟩)
          · rw [hp] at hm; cases hm
          · cases hm
          · cases hm; exact hne hs
        simp only [hs, ne_eq, not_true_eq_false, if_false]
        subst hs
        split
        · cases doc with
          | none =>
            exact ⟨_, _, rfl, rfl, rfl, Or.inr ⟨hnf, rfl, _, _, (withFoundExcluded_self _).symm⟩⟩
          | some d =>
            obtain ⟨links', f, e, h⟩ := extractLinksLoop_spec lib pageURL b hp (hrefsOf d) []
              (addCrawled c)
            simp only [extractLinks, h]
            exact ⟨_, _, rfl, rfl, rfl, Or.inr ⟨hnf, rfl, f, e, rfl⟩⟩
        · exact ⟨_, _, rfl, rfl, rfl, Or.inr ⟨hnf, rfl, _, _, (withFoundExcluded_self _).symm⟩⟩
      · simp only [hs, ne_eq, not_false_eq_true, if_true]
        exact ⟨_, _, rfl, rfl, rfl,
          Or.inl ⟨Or.inr (Or.inr ⟨status, contentType, doc, rfl, hs⟩),
            http_status_ne_empty status, rfl⟩⟩

/-! ## Runs of the scheduler -/

theorem send_cases (s : State) (sender : Sender) (job : CrawlJob) (next : State → State)
    (t : State) (h : send s sender job next = some t) :
    t = { s with panicked := true } ∨
    (s.closed = false ∧
      t = next { s with jobs := s.jobs ++ [job], sent := s.sent ++ [(sender, job)] }) := by
  unfold send at h
  split at h
  · left; injection h with h; exact h.symm
  · split at h
    · right
      injection h with h
      exact ⟨by simpa using ‹¬ s.closed = true›, h.symm⟩
    · cases h

theorem mainStep_sound (lib : Lib) (s t : State) (h : mainStep lib s = some t) :
    Step lib s t := by
  unfold mainStep at h
  split at h
  next hm => injection h with h; subst h; exact Step.sitemapDone s hm
  next url rest hm =>
    split at h
    next hc =>
      injection h with h; subst h
      simp only [Bool.and_eq_true, Bool.not_eq_true'] at hc
      exact Step.sitemapAccept s url rest hm hc.1 hc.2
    next => injection h with h; subst h; exact Step.sitemapReject s url rest hm
  next url rest hm => injection h with h; subst h; exact Step.sitemapCount s url rest hm
  next url rest hm =>
    rcases send_cases _ _ _ _ _ h with h | ⟨hc, h⟩
    · subst h; exact Step.panic s
    · subst h; exact Step.sitemapSend s url rest hm hc
  next hm =>
    split at h
    next hc =>
      injection h with h; subst h
      exact Step.baseAccept s hm (by simpa using hc)
    next => injection h with h; subst h; exact Step.baseSkip s hm
  next hm => injection h with h; subst h; exact Step.baseCount s hm
  next hm =>
    rcases send_cases _ _ _ _ _ h with h | ⟨hc, h⟩
    · subst h; exact Step.panic s
    · subst h; exact Step.baseSend s hm hc
  next hm =>
    split at h
    next hz => injection h with h; subst h; exact Step.monitorZero s hm hz
    next => injection h with h; subst h; exact Step.monitorBusy s hm
  next hm =>
    split at h
    next hz => injection h with h; subst h; exact Step.graceClose s hm hz
    next => injection h with h; subst h; exact Step.graceResume s hm
  next => cases h

theorem workerStep_sound (lib : Lib) (i : Nat) (now : Nat) (o : FetchOutcome) (pc : WorkerPC)
    (s t : State) (hpc : s.workers.get? i = some pc)
    (h : workerStep lib i now o pc s = some t) : Step lib s t := by
  unfold workerStep at h
  split at h
  next =>
    split at h
    next job rest hj => injection h with h; subst h; exact Step.receive s i job rest hpc hj
    next hj =>
      split at h
      next hc => injection h with h; subst h; exact Step.exit s i hpc hj hc
      next => cases h
  next job => injection h with h; subst h; exact Step.decrement s i job hpc
  next job =>
    simp only at h
    split at h
    next hs => injection h with h; subst h; exact Step.skip s i job hpc hs
    next hs =>
      injection h with h; subst h
      exact Step.pass s i job hpc (by simpa using hs)
  next job => injection h with h; subst h; exact Step.mark s i job hpc
  next job =>
    split at h
    next => injection h with h; subst h; exact Step.panic s
    next result c hf => injection h with h; subst h; exact Step.fetch s i job now o result c hpc hf
  next job result =>
    split at h
    next hd => injection h with h; subst h; exact Step.addDeeper s i job result hpc hd
    next hd => injection h with h; subst h; exact Step.addLeaf s i job result hpc hd
  next job => injection h with h; subst h; exact Step.linksDone s i job hpc
  next job link rest =>
    simp only at h
    split at h
    next ha => injection h with h; subst h; exact Step.linkAccept s i job link rest hpc ha
    next ha =>
      injection h with h; subst h
      exact Step.linkReject s i job link rest hpc (by simpa using ha)
  next job link rest => injection h with h; subst h; exact Step.count s i job link rest hpc
  next job link rest =>
    rcases send_cases _ _ _ _ _ h with h | ⟨hc, h⟩
    · subst h; exact Step.panic s
    · subst h; exact Step.workerSend s i job link rest hpc hc
  next => cases h

/-- Every step of the system is one of the transitions of `Step`. -/
theorem step_sound (lib : Lib) (s t : State) (a : Action) (h : step lib s a = some t) :
    Step lib s t := by
  unfold step at h
  split at h
  · cases h
  · cases a with
    | main => exact mainStep_sound lib s t h
    | worker i now o =>
      simp only at h
      split at h
      next => cases h
      next pc hpc => exact workerStep_sound lib i now o pc s t hpc h

/-- Induction over a schedule: a property kept by every transition holds after
a run if it holds before. -/
theorem run_induction (lib : Lib) (P : State → Prop)
    (hstep : ∀ s t, P s → Step lib s t → P t) :
    ∀ (acts : List Action) (s t : State), P s → run lib s acts = some t → P t := by
  intro acts
  induction acts with
  | nil =>
    intro s t hs h
    injection h with h
    exact h ▸ hs
  | cons a rest ih =>
    intro s t hs h
    unfold run at h
    split at h
    · cases h
    · next u hu => exact ih u t (hstep s u hs (step_sound lib s u a hu)) h

/-! ## What the filter functions leave unchanged -/

theorem StatsOnly.refl (c : Crawler) : StatsOnly c c := ⟨c.stats, rfl, rfl⟩

theorem statsOnly_withFoundExcluded (c : Crawler) (f e : Int) :
    StatsOnly c (withFoundExcluded c f e) := ⟨_, rfl, rfl⟩

theorem shouldExclude_statsOnly (c : Crawler) (u : String) :
    StatsOnly c (shouldExclude c u).2 := by
  obtain ⟨f, e, h⟩ := shouldExclude_frame c u
  rw [h]
  exact statsOnly_withFoundExcluded c f e

theorem shouldSkip_statsOnly (lib : Lib) (c : Crawler) (u : String) :
    StatsOnly c (shouldSkip lib c u).2 := by
  unfold shouldSkip
  split
  · exact StatsOnly.refl c
  · split
    · exact StatsOnly.refl c
    · exact shouldExclude_statsOnly c u

theorem acceptLink_statsOnly (lib : Lib) (c : Crawler) (u : String) :
    StatsOnly c (acceptLink lib c u).2 := by
  unfold acceptLink
  split
  · exact StatsOnly.refl c
  · split
    · exact StatsOnly.refl c
    · exact shouldExclude_statsOnly c u

theorem crawlPage_frame (lib : Lib) (c : Crawler) (pageURL : String) (depth : Int) (now : Nat)
    (o : FetchOutcome) (r : PageResult) (c' : Crawler)
    (h : crawlPage lib c pageURL depth now o = some (r, c')) :
    r.URL = pageURL ∧ r.Depth = depth ∧ StatsOnly c c' := by
  unfold crawlPage at h
  cases hp : lib.urlParse pageURL with
  | error msg =>
    simp only [hp, Option.some.injEq, Prod.mk.injEq] at h
    obtain ⟨h1, h2⟩ := h
    subst h1 h2
    exact ⟨rfl, rfl, _, rfl, rfl⟩
  | ok b =>
    simp only [hp] at h
    cases o with
    | transportError msg =>
      simp only [Option.some.injEq, Prod.mk.injEq] at h
      obtain ⟨h1, h2⟩ := h
      subst h1 h2
      exact ⟨rfl, rfl, _, rfl, rfl⟩
    | response status contentType doc =>
      simp only at h
      split at h
      · simp only [Option.some.injEq, Prod.mk.injEq] at h
        obtain ⟨h1, h2⟩ := h
        subst h1 h2
        exact ⟨rfl, rfl, _, rfl, rfl⟩
      · split at h
        · cases doc with
          | none =>
            simp only [Option.some.injEq, Prod.mk.injEq] at h
            obtain ⟨h1, h2⟩ := h
            subst h1 h2
            exact ⟨rfl, rfl, _, rfl, rfl⟩
          | some d =>
            obtain ⟨links', f, e, hl⟩ := extractLinksLoop_spec lib pageURL b hp (hrefsOf d) []
              (addCrawled c)
            simp only [extractLinks, hl, Option.some.injEq, Prod.mk.injEq] at h
            obtain ⟨h1, h2⟩ := h
            subst h1 h2
            exact ⟨rfl, rfl, _, rfl, rfl⟩
        · simp only [Option.some.injEq, Prod.mk.injEq] at h
          obtain ⟨h1, h2⟩ := h
          subst h1 h2
          exact ⟨rfl, rfl, _, rfl, rfl⟩

/-! ## Workers never handle a filtered URL -/

theorem mem_of_get? {α : Type} (l : List α) (i : Nat) (x : α) (h : l.get? i = some x) : x ∈ l :=
  List.get?_mem h

theorem mem_set_cases {α : Type} (l : List α) (i : Nat) (a x : α) (h : x ∈ l.set i a) :
    x ∈ l ∨ x = a := by
  rcases List.mem_or_eq_of_mem_set h with h | h
  · exact Or.inl h
  · exact Or.inr h

/-- Replacing the program counter of one worker keeps `WorkerFree` when the new
counter neither crawls nor enqueues `u`. -/
theorem workerFree_set (u : String) (r0 : List PageResult) (s t : State) (i : Nat)
    (pc : WorkerPC) (h : WorkerFree u r0 s) (hw : t.workers = s.workers.set i pc)
    (hsent : t.sent = s.sent) (hres : t.c.results = s.c.results)
    (h1 : pc.crawling ≠ some u) (h2 : pc.enqueuing ≠ some u) : WorkerFree u r0 t := by
  refine ⟨?_, ?_, ?_, ?_⟩
  · intro q hq
    rw [hw] at hq
    rcases mem_set_cases _ _ _ _ hq with hq | hq
    · exact h.crawling q hq
    · rw [hq]; exact h1
  · intro q hq
    rw [hw] at hq
    rcases mem_set_cases _ _ _ _ hq with hq | hq
    · exact h.enqueuing q hq
    · rw [hq]; exact h2
  · rw [hsent]; exact h.sent
  · rw [hres]; exact h.results

/-- A move of `Start` or of the monitor keeps `WorkerFree`. -/
theorem workerFree_main (u : String) (r0 : List PageResult) (s t : State)
    (h : WorkerFree u r0 s) (hw : t.workers = s.workers)
    (hsent : t.sent = s.sent ∨ ∃ j, t.sent = s.sent ++ [(Sender.start, j)])
    (hres : t.c.results = s.c.results) : WorkerFree u r0 t := by
  refine ⟨?_, ?_, ?_, ?_⟩
  · rw [hw]; exact h.crawling
  · rw [hw]; exact h.enqueuing
  · rcases hsent with hs | ⟨j, hs⟩
    · rw [hs]; exact h.sent
    · intro i k hk
      rw [hs] at hk
      simp only [List.mem_append, List.mem_singleton, Prod.mk.injEq] at hk
      rcases hk with hk | hk
      · exact h.sent i k hk
      · exact absurd hk.1 (by simp)
  · rw [hres]; exact h.results
theorem StatsOnly.results {c c' : Crawler} (h : StatsOnly c c') : c'.results = c.results := by
  obtain ⟨st, hc, _⟩ := h; rw [hc]

theorem StatsOnly.visited {c c' : Crawler} (h : StatsOnly c c') : c'.visited = c.visited := by
  obtain ⟨st, hc, _⟩ := h; rw [hc]

theorem StatsOnly.config {c c' : Crawler} (h : StatsOnly c c') : c'.config = c.config := by
  obtain ⟨st, hc, _⟩ := h; rw [hc]

theorem StatsOnly.excludeRegex {c c' : Crawler} (h : StatsOnly c c') :
    c'.excludeRegex = c.excludeRegex := by
  obtain ⟨st, hc, _⟩ := h; rw [hc]

theorem StatsOnly.activeJobs {c c' : Crawler} (h : StatsOnly c c') :
    c'.activeJobs = c.activeJobs := by
  obtain ⟨st, hc, _⟩ := h; rw [hc]

theorem StatsOnly.externalLinks {c c' : Crawler} (h : StatsOnly c c') :
    c'.stats.ExternalLinks = c.stats.ExternalLinks := by
  obtain ⟨st, hc, he⟩ := h; rw [hc]; exact he

/-- Every transition keeps `WorkerFree` for `u`, provided that in the state
before it `shouldSkip` skips `u` and the enqueue condition rejects `u`. -/
theorem workerFree_step (lib : Lib) (u : String) (r0 : List PageResult) (s t : State)
    (hstep : Step lib s t)
    (hskip : ∀ v, (shouldSkip lib s.c v).1 = false → v ≠ u)
    (hadm : ∀ v, (acceptLink lib s.c v).1 = true → v ≠ u)
    (h : WorkerFree u r0 s) : WorkerFree u r0 t := by
  cases hstep with
  | panic => exact workerFree_main u r0 s _ h rfl (Or.inl rfl) rfl
  | sitemapDone hm => exact workerFree_main u r0 s _ h rfl (Or.inl rfl) rfl
  | sitemapAccept url rest hm hv hd => exact workerFree_main u r0 s _ h rfl (Or.inl rfl) rfl
  | sitemapReject url rest hm => exact workerFree_main u r0 s _ h rfl (Or.inl rfl) rfl
  | sitemapCount url rest hm => exact workerFree_main u r0 s _ h rfl (Or.inl rfl) rfl
  | sitemapSend url rest hm hc => exact workerFree_main u r0 s _ h rfl (Or.inr ⟨_, rfl⟩) rfl
  | baseAccept hm hv => exact workerFree_main u r0 s _ h rfl (Or.inl rfl) rfl
  | baseSkip hm => exact workerFree_main u r0 s _ h rfl (Or.inl rfl) rfl
  | baseCount hm => exact workerFree_main u r0 s _ h rfl (Or.inl rfl) rfl
  | baseSend hm hc => exact workerFree_main u r0 s _ h rfl (Or.inr ⟨_, rfl⟩) rfl
  | monitorZero hm hz => exact workerFree_main u r0 s _ h rfl (Or.inl rfl) rfl
  | monitorBusy hm => exact h
  | graceClose hm hz => exact workerFree_main u r0 s _ h rfl (Or.inl rfl) rfl
  | graceResume hm => exact workerFree_main u r0 s _ h rfl (Or.inl rfl) rfl
  | receive i job rest hpc hj =>
    exact workerFree_set u r0 s _ i _ h rfl rfl rfl (by simp [WorkerPC.crawling])
      (by simp [WorkerPC.enqueuing])
  | exit i hpc hj hc =>
    exact workerFree_set u r0 s _ i _ h rfl rfl rfl (by simp [WorkerPC.crawling])
      (by simp [WorkerPC.enqueuing])
  | decrement i job hpc =>
    exact workerFree_set u r0 s _ i _ h rfl rfl rfl (by simp [WorkerPC.crawling])
      (by simp [WorkerPC.enqueuing])
  | skip i job hpc hs =>
    exact workerFree_set u r0 s _ i _ h rfl rfl (shouldSkip_statsOnly lib s.c job.URL).results
      (by simp [WorkerPC.crawling]) (by simp [WorkerPC.enqueuing])
  | pass i job hpc hs =>
    exact workerFree_set u r0 s _ i _ h rfl rfl (shouldSkip_statsOnly lib s.c job.URL).results
      (by simpa [WorkerPC.crawling] using hskip _ hs) (by simp [WorkerPC.enqueuing])
  | mark i job hpc =>
    have := h.crawling _ (mem_of_get? _ _ _ hpc)
    exact workerFree_set u r0 s _ i _ h rfl rfl rfl (by simpa [WorkerPC.crawling] using this)
      (by simp [WorkerPC.enqueuing])
  | fetch i job now o result c hpc hf =>
    have := h.crawling _ (mem_of_get? _ _ _ hpc)
    obtain ⟨hu, _, hso⟩ := crawlPage_frame lib s.c job.URL job.Depth now o result c hf
    exact workerFree_set u r0 s _ i _ h rfl rfl hso.results
      (by simpa [WorkerPC.crawling, hu] using this) (by simp [WorkerPC.enqueuing])
  | addDeeper i job result hpc hd =>
    have hr := h.crawling _ (mem_of_get? _ _ _ hpc)
    simp only [WorkerPC.crawling, ne_eq, Option.some.injEq] at hr
    refine ⟨?_, ?_, h.sent, ?_⟩
    · intro q hq
      rcases mem_set_cases _ _ _ _ hq with hq | hq
      · exact h.crawling q hq
      · rw [hq]; simp [WorkerPC.crawling]
    · intro q hq
      rcases mem_set_cases _ _ _ _ hq with hq | hq
      · exact h.enqueuing q hq
      · rw [hq]; simp [WorkerPC.enqueuing]
    · obtain ⟨app, ha, hall⟩ := h.results
      refine ⟨app ++ [result], ?_, ?_⟩
      · show s.c.results ++ [result] = r0 ++ (app ++ [result])
        rw [ha, List.append_assoc]
      · intro r hr'
        rcases List.mem_append.mp hr' with hr' | hr'
        · exact hall r hr'
        · rw [List.mem_singleton.mp hr']; exact hr
  | addLeaf i job result hpc hd =>
    have hr := h.crawling _ (mem_of_get? _ _ _ hpc)
    simp only [WorkerPC.crawling, ne_eq, Option.some.injEq] at hr
    refine ⟨?_, ?_, h.sent, ?_⟩
    · intro q hq
      rcases mem_set_cases _ _ _ _ hq with hq | hq
      · exact h.crawling q hq
      · rw [hq]; simp [WorkerPC.crawling]
    · intro q hq
      rcases mem_set_cases _ _ _ _ hq with hq | hq
      · exact h.enqueuing q hq
      · rw [hq]; simp [WorkerPC.enqueuing]
    · obtain ⟨app, ha, hall⟩ := h.results
      refine ⟨app ++ [result], ?_, ?_⟩
      · show s.c.results ++ [result] = r0 ++ (app ++ [result])
        rw [ha, List.append_assoc]
      · intro r hr'
        rcases List.mem_append.mp hr' with hr' | hr'
        · exact hall r hr'
        · rw [List.mem_singleton.mp hr']; exact hr
  | linksDone i job hpc =>
    exact workerFree_set u r0 s _ i _ h rfl rfl rfl (by simp [WorkerPC.crawling])
      (by simp [WorkerPC.enqueuing])
  | linkAccept i job link rest hpc ha =>
    exact workerFree_set u r0 s _ i _ h rfl rfl (acceptLink_statsOnly lib s.c link).results
      (by simp [WorkerPC.crawling]) (by simpa [WorkerPC.enqueuing] using hadm _ ha)
  | linkReject i job link rest hpc ha =>
    exact workerFree_set u r0 s _ i _ h rfl rfl (acceptLink_statsOnly lib s.c link).results
      (by simp [WorkerPC.crawling]) (by simp [WorkerPC.enqueuing])
  | count i job link rest hpc =>
    have := h.enqueuing _ (mem_of_get? _ _ _ hpc)
    exact workerFree_set u r0 s _ i _ h rfl rfl rfl (by simp [WorkerPC.crawling])
      (by simpa [WorkerPC.enqueuing] using this)
  | workerSend i job link rest hpc hc =>
    have hl := h.enqueuing _ (mem_of_get? _ _ _ hpc)
    simp only [WorkerPC.enqueuing, ne_eq, Option.some.injEq] at hl
    refine ⟨?_, ?_, ?_, h.results⟩
    · intro q hq
      rcases mem_set_cases _ _ _ _ hq with hq | hq
      · exact h.crawling q hq
      · rw [hq]; simp [WorkerPC.crawling]
    · intro q hq
      rcases mem_set_cases _ _ _ _ hq with hq | hq
      · exact h.enqueuing q hq
      · rw [hq]; simp [WorkerPC.enqueuing]
    · intro k j hk
      have hk' : (Sender.worker k, j) ∈ s.sent ++
          [(Sender.worker i, ({ URL := link, Depth := job.Depth + 1 } : CrawlJob))] := hk
      rcases List.mem_append.mp hk' with hk' | hk'
      · exact h.sent k j hk'
      · simp only [List.mem_singleton, Prod.mk.injEq] at hk'
        rw [hk'.2]; exact hl

/-! ## Facts kept by every transition -/

/-- Every transition leaves the configuration and the pattern table alone and
only adds to the visited set. -/
theorem step_stable (lib : Lib) (s t : State) (hstep : Step lib s t) :
    t.c.config = s.c.config ∧ t.c.excludeRegex = s.c.excludeRegex ∧
      (∀ u, u ∈ s.c.visited → u ∈ t.c.visited) ∧
      t.c.stats.ExternalLinks = s.c.stats.ExternalLinks := by
  cases hstep with
  | skip i job hpc hs =>
    have h := shouldSkip_statsOnly lib s.c job.URL
    exact ⟨h.config, h.excludeRegex, fun u hu => by simpa [State.setWorker, h.visited] using hu,
      h.externalLinks⟩
  | pass i job hpc hs =>
    have h := shouldSkip_statsOnly lib s.c job.URL
    exact ⟨h.config, h.excludeRegex, fun u hu => by simpa [State.setWorker, h.visited] using hu,
      h.externalLinks⟩
  | linkAccept i job link rest hpc ha =>
    have h := acceptLink_statsOnly lib s.c link
    exact ⟨h.config, h.excludeRegex, fun u hu => by simpa [State.setWorker, h.visited] using hu,
      h.externalLinks⟩
  | linkReject i job link rest hpc ha =>
    have h := acceptLink_statsOnly lib s.c link
    exact ⟨h.config, h.excludeRegex, fun u hu => by simpa [State.setWorker, h.visited] using hu,
      h.externalLinks⟩
  | fetch i job now o result c hpc hf =>
    have h := (crawlPage_frame lib s.c job.URL job.Depth now o result c hf).2.2
    exact ⟨h.config, h.excludeRegex, fun u hu => by simpa [State.setWorker, h.visited] using hu,
      h.externalLinks⟩
  | mark i job hpc =>
    refine ⟨rfl, rfl, fun u hu => ?_, rfl⟩
    show u ∈ storeVisited s.c.visited job.URL
    exact (mem_storeVisited _ _ _).mpr (Or.inl hu)
  | _ => exact ⟨rfl, rfl, fun u hu => hu, rfl⟩

/-- Induction over the reachable states of a run of `Start`. -/
theorem reachable_induction (lib : Lib) (fs : FileSystem) (sitemapURLs : List String)
    (c : Crawler) (P : State → Prop) (h0 : P (Start lib fs sitemapURLs c))
    (hstep : ∀ s t, P s → Step lib s t → P t) :
    ∀ s, Reachable lib fs sitemapURLs c s → P s := by
  rintro s ⟨acts, h⟩
  exact run_induction lib P hstep acts _ s h0 h

theorem shouldSkip_of_visited (lib : Lib) (c : Crawler) (u : String) (h : u ∈ c.visited) :
    (shouldSkip lib c u).1 = true := by
  simp [shouldSkip, isVisited, h]

theorem acceptLink_of_visited (lib : Lib) (c : Crawler) (u : String) (h : u ∈ c.visited) :
    (acceptLink lib c u).1 = false := by
  simp [acceptLink, isVisited, h]

/-- Every transition keeps `MainFree` for a URL that is in the visited set. -/
theorem mainFree_step (lib : Lib) (u : String) (s t : State) (hstep : Step lib s t)
    (hv : u ∈ s.c.visited) (h : MainFree u s) : MainFree u t := by
  have hcfg := (step_stable lib s t hstep).1
  have hen := h.enqueuing
  have hsent := h.sent
  constructor
  · rw [hcfg]
    cases hstep with
    | sitemapAccept url rest hm hvis hd =>
      simp only [MainPC.enqueuing, ne_eq, Option.some.injEq]
      rintro rfl
      simp [isVisited, hv] at hvis
    | baseAccept hm hvis =>
      simp only [MainPC.enqueuing, ne_eq, Option.some.injEq]
      intro e
      rw [e] at hvis
      simp [isVisited, hv] at hvis
    | sitemapCount url rest hm => simpa [hm, MainPC.enqueuing] using hen
    | baseCount hm => simpa [hm, MainPC.enqueuing] using hen
    | monitorBusy hm => exact hen
    | panic => exact hen
    | receive i job rest hpc hj => exact hen
    | exit i hpc hj hc => exact hen
    | decrement i job hpc => exact hen
    | skip i job hpc hs => exact hen
    | pass i job hpc hs => exact hen
    | mark i job hpc => exact hen
    | fetch i job now o result c hpc hf => exact hen
    | addDeeper i job result hpc hd => exact hen
    | addLeaf i job result hpc hd => exact hen
    | linksDone i job hpc => exact hen
    | linkAccept i job link rest hpc ha => exact hen
    | linkReject i job link rest hpc ha => exact hen
    | count i job link rest hpc => exact hen
    | workerSend i job link rest hpc hc => exact hen
    | _ => simp [MainPC.enqueuing]
  · cases hstep with
    | sitemapSend url rest hm hc =>
      intro j hj
      have hj' : (Sender.start, j) ∈ s.sent ++
          [(Sender.start, ({ URL := url, Depth := 1 } : CrawlJob))] := hj
      rcases List.mem_append.mp hj' with hj' | hj'
      · exact hsent j hj'
      · simp only [List.mem_singleton, Prod.mk.injEq, true_and] at hj'
        rw [hj']
        simpa [hm, MainPC.enqueuing] using hen
    | baseSend hm hc =>
      intro j hj
      have hj' : (Sender.start, j) ∈ s.sent ++
          [(Sender.start, ({ URL := s.c.config.BaseURL, Depth := 0 } : CrawlJob))] := hj
      rcases List.mem_append.mp hj' with hj' | hj'
      · exact hsent j hj'
      · simp only [List.mem_singleton, Prod.mk.injEq, true_and] at hj'
        rw [hj']
        simpa [hm, MainPC.enqueuing] using hen
    | workerSend i job link rest hpc hc =>
      intro j hj
      have hj' : (Sender.start, j) ∈ s.sent ++
          [(Sender.worker i, ({ URL := link, Depth := job.Depth + 1 } : CrawlJob))] := hj
      rcases List.mem_append.mp hj' with hj' | hj'
      · exact hsent j hj'
      · simp at hj'
    | _ => exact hsent

/-! ## Resuming from a checkpoint -/

theorem workerFree_start (lib : Lib) (fs : FileSystem) (sitemapURLs : List String)
    (c : Crawler) (u : String) :
    WorkerFree u (Start lib fs sitemapURLs c).c.results (Start lib fs sitemapURLs c) := by
  refine ⟨?_, ?_, ?_, ⟨[], by simp, by simp⟩⟩
  · intro pc hpc
    simp only [Start, List.mem_replicate] at hpc
    rw [hpc.2]; simp [WorkerPC.crawling]
  · intro pc hpc
    simp only [Start, List.mem_replicate] at hpc
    rw [hpc.2]; simp [WorkerPC.enqueuing]
  · intro i j hj
    simp [Start] at hj

theorem mainFree_start (lib : Lib) (fs : FileSystem) (sitemapURLs : List String)
    (c : Crawler) (u : String) : MainFree u (Start lib fs sitemapURLs c) := by
  constructor
  · simp only [Start]
    split <;> simp [MainPC.enqueuing]
  · intro j hj
    simp [Start] at hj

/-- C7: when `LoadCheckpoint` succeeds with a checkpoint whose `visited_urls`
contain `u`, then in every state of the run `shouldSkip` answers true for `u` and
the enqueue condition rejects `u`; no job for `u` is ever sent, no worker crawls
`u`, and the results are the checkpoint's results followed by results for other
URLs. -/
theorem C7_checkpoint_urls_never_recrawled (lib : Lib) (fs : FileSystem)
    (sitemapURLs : List String) (c : Crawler) (data : String) (checkpoint : Checkpoint)
    (u : String) (hread : fs.files c.checkpointFile = some data)
    (hparse : lib.jsonUnmarshal data = .ok checkpoint) (hu : u ∈ checkpoint.VisitedURLs)
    (s : State) (hs : Reachable lib fs sitemapURLs c s) :
    (LoadCheckpoint lib fs c).1 = true ∧
    (shouldSkip lib s.c u).1 = true ∧ (acceptLink lib s.c u).1 = false ∧
    (∀ x ∈ s.sent, x.2.URL ≠ u) ∧ (∀ pc ∈ s.workers, pc.crawling ≠ some u) ∧
    ∃ appended, s.c.results = checkpoint.Results ++ appended ∧ ∀ r ∈ appended, r.URL ≠ u := by
  have hload : LoadCheckpoint lib fs c = (true, { c with
      visited := checkpoint.VisitedURLs.foldl storeVisited c.visited
      results := checkpoint.Results
      stats := checkpoint.Stats }) := by
    simp [LoadCheckpoint, hread, hparse]
  have hres : (Start lib fs sitemapURLs c).c.results = checkpoint.Results := by
    simp [Start, hload]
  have hvis : u ∈ (Start lib fs sitemapURLs c).c.visited := by
    simp only [Start, hload]
    exact (mem_foldl_storeVisited _ _ _).mpr (Or.inr hu)
  have hinv : u ∈ s.c.visited ∧ WorkerFree u checkpoint.Results s ∧ MainFree u s := by
    refine reachable_induction lib fs sitemapURLs c
      (fun s => u ∈ s.c.visited ∧ WorkerFree u checkpoint.Results s ∧ MainFree u s)
      ⟨hvis, hres ▸ workerFree_start lib fs sitemapURLs c u, mainFree_start lib fs sitemapURLs c u⟩
      ?_ s hs
    rintro a b ⟨hv, hw, hm⟩ hstep
    refine ⟨(step_stable lib a b hstep).2.2.1 u hv, ?_, mainFree_step lib u a b hstep hv hm⟩
    refine workerFree_step lib u _ a b hstep ?_ ?_ hw
    · rintro v hf rfl
      rw [shouldSkip_of_visited lib a.c v hv] at hf
      cases hf
    · rintro v hf rfl
      rw [acceptLink_of_visited lib a.c v hv] at hf
      cases hf
  obtain ⟨hv, hw, hm⟩ := hinv
  refine ⟨by rw [hload], shouldSkip_of_visited lib s.c u hv, acceptLink_of_visited lib s.c u hv,
    ?_, hw.crawling, hw.results⟩
  rintro ⟨sender, j⟩ hx
  cases sender with
  | start => exact hm.sent j hx
  | worker i => exact hw.sent i j hx

/-- C7 (witness): the checkpoint with three visited URLs and two results, and
the state in which the worker has crawled the sitemap page `/c`, whose links are
the visited `/a` and the new `/d`. -/
theorem C7_checkpoint_urls_never_recrawled_witness :
    (checkpointFS "doc").files (NewCrawler (sampleConfig 2 1 true) 0).checkpointFile
      = some "doc" ∧
    (oneDocLib sampleCheckpoint "doc").jsonUnmarshal "doc" = .ok sampleCheckpoint ∧
    "http://example.com/a" ∈ sampleCheckpoint.VisitedURLs ∧
    Reachable (oneDocLib sampleCheckpoint "doc") (checkpointFS "doc") resumeSitemap
      (NewCrawler (sampleConfig 2 1 true) 0) resumedState ∧
    ((LoadCheckpoint (oneDocLib sampleCheckpoint "doc") (checkpointFS "doc")
        (NewCrawler (sampleConfig 2 1 true) 0)).1 = true ∧
    (shouldSkip (oneDocLib sampleCheckpoint "doc") resumedState.c "http://example.com/a").1
      = true ∧
    (acceptLink (oneDocLib sampleCheckpoint "doc") resumedState.c "http://example.com/a").1
      = false ∧
    (∀ x ∈ resumedState.sent, x.2.URL ≠ "http://example.com/a") ∧
    (∀ pc ∈ resumedState.workers, pc.crawling ≠ some "http://example.com/a") ∧
    ∃ appended, resumedState.c.results = sampleCheckpoint.Results ++ appended ∧
      ∀ r ∈ appended, r.URL ≠ "http://example.com/a") :=
  have hreach : Reachable (oneDocLib sampleCheckpoint "doc") (checkpointFS "doc") resumeSitemap
      (NewCrawler (sampleConfig 2 1 true) 0) resumedState := ⟨resumeSchedule, rfl⟩
  ⟨by decide, rfl, by decide, hreach,
    C7_checkpoint_urls_never_recrawled (oneDocLib sampleCheckpoint "doc") (checkpointFS "doc")
      resumeSitemap (NewCrawler (sampleConfig 2 1 true) 0) "doc" sampleCheckpoint
      "http://example.com/a" (by decide) rfl (by decide) resumedState hreach⟩

/-! ## The exclusion filter in a run -/

theorem shouldSkip_of_excluded (lib : Lib) (c : Crawler) (u : String) (hu : Excluded u)
    (ht : c.excludeRegex.Perm excludePatterns) : (shouldSkip lib c u).1 = true := by
  unfold shouldSkip
  split
  · rfl
  · split
    · rfl
    · rw [shouldExclude_of_excluded c u hu ht]

theorem acceptLink_of_excluded (lib : Lib) (c : Crawler) (u : String) (hu : Excluded u)
    (ht : c.excludeRegex.Perm excludePatterns) : (acceptLink lib c u).1 = false := by
  unfold acceptLink
  split
  · rfl
  · split
    · rfl
    · rw [shouldExclude_of_excluded c u hu ht]; rfl

theorem start_excludeRegex (lib : Lib) (fs : FileSystem) (sitemapURLs : List String)
    (c : Crawler) : (Start lib fs sitemapURLs c).c.excludeRegex = c.excludeRegex := by
  simp only [Start, LoadCheckpoint]
  split
  · rfl
  · split <;> rfl

/-- C5 (counterexample): with a sitemap that lists `http://example.com/logo.png`
and the base URL `http://example.com/?utm_source=mail`, `Start` enqueues a job
for each of them, although both are excluded URLs. -/
theorem C5_excluded_seeds_are_enqueued :
    seededExcluded.map (fun s => s.jobs)
      = some [{ URL := "http://example.com/logo.png", Depth := 1 },
              { URL := "http://example.com/?utm_source=mail", Depth := 0 }] ∧
    Excluded "http://example.com/logo.png" ∧ Excluded "http://example.com/?utm_source=mail" := by
  refine ⟨by decide, Or.inl (by decide), ?_⟩
  refine Or.inr (Or.inr (Or.inr (Or.inr (Or.inr (Or.inr ?_)))))
  exact ⟨"http://example.com/".data, [], "source=mail".data, by decide, by decide, Or.inl rfl⟩

/-- C5 (amended): for a URL that ends in `.png` or `.css`, starts with `mailto:`,
`tel:`, `javascript:` or `#`, or has a `utm_` query parameter after a `?` on the
same line, `shouldExclude` returns true and adds one to `ExcludedLinks` for
every order of the pattern table; and in every run no worker enqueues a job for
it as a discovered link, no worker crawls it, and no result for it is appended
(a job seeded for it by `Start` is dropped by the worker that receives it). -/
theorem C5_excluded_url_never_crawled (u : String) (hu : Excluded u)
    (c : Crawler) (ht : c.excludeRegex.Perm excludePatterns)
    (lib : Lib) (fs : FileSystem) (sitemapURLs : List String) (cfg : Config) (now : Nat)
    (s : State) (hs : Reachable lib fs sitemapURLs (NewCrawler cfg now) s) :
    ((shouldExclude c u).1 = true ∧
      (shouldExclude c u).2.stats.ExcludedLinks = c.stats.ExcludedLinks + 1) ∧
    (shouldSkip lib s.c u).1 = true ∧
    (∀ i j, (Sender.worker i, j) ∈ s.sent → j.URL ≠ u) ∧
    (∀ pc ∈ s.workers, pc.crawling ≠ some u) ∧
    ∃ appended,
      s.c.results = (Start lib fs sitemapURLs (NewCrawler cfg now)).c.results ++ appended ∧
      ∀ r ∈ appended, r.URL ≠ u := by
  constructor
  · rw [shouldExclude_of_excluded c u hu ht]
    exact ⟨rfl, rfl⟩
  · have hinv : s.c.excludeRegex = excludePatterns ∧
        WorkerFree u (Start lib fs sitemapURLs (NewCrawler cfg now)).c.results s := by
      refine reachable_induction lib fs sitemapURLs (NewCrawler cfg now)
        (fun s => s.c.excludeRegex = excludePatterns ∧
          WorkerFree u (Start lib fs sitemapURLs (NewCrawler cfg now)).c.results s)
        ⟨by rw [start_excludeRegex]; rfl, workerFree_start lib fs sitemapURLs _ u⟩ ?_ s hs
      rintro a b ⟨he, hw⟩ hstep
      refine ⟨by rw [(step_stable lib a b hstep).2.1, he], ?_⟩
      refine workerFree_step lib u _ a b hstep ?_ ?_ hw
      · rintro v hf rfl
        rw [shouldSkip_of_excluded lib a.c v hu (he ▸ List.Perm.refl _)] at hf
        cases hf
      · rintro v hf rfl
        rw [acceptLink_of_excluded lib a.c v hu (he ▸ List.Perm.refl _)] at hf
        cases hf
    exact ⟨shouldSkip_of_excluded lib s.c u hu (hinv.1 ▸ List.Perm.refl _), hinv.2.sent,
      hinv.2.crawling, hinv.2.results⟩

/-- C5 (witness): the image `http://example.com/logo.png`, the pattern table
reversed, and the state in which the worker has dropped the job seeded for the
image. -/
theorem C5_excluded_url_never_crawled_witness :
    Excluded "http://example.com/logo.png" ∧
    (reversedTable.excludeRegex.Perm excludePatterns) ∧
    Reachable sampleLib emptyFS ["http://example.com/logo.png"]
      (NewCrawler (sampleConfig 2 1 true) 0) droppedImage ∧
    (((shouldExclude reversedTable "http://example.com/logo.png").1 = true ∧
      (shouldExclude reversedTable "http://example.com/logo.png").2.stats.ExcludedLinks
        = reversedTable.stats.ExcludedLinks + 1) ∧
    (shouldSkip sampleLib droppedImage.c "http://example.com/logo.png").1 = true ∧
    (∀ i j, (Sender.worker i, j) ∈ droppedImage.sent → j.URL ≠ "http://example.com/logo.png") ∧
    (∀ pc ∈ droppedImage.workers, pc.crawling ≠ some "http://example.com/logo.png") ∧
    ∃ appended,
      droppedImage.c.results
        = (Start sampleLib emptyFS ["http://example.com/logo.png"]
            (NewCrawler (sampleConfig 2 1 true) 0)).c.results ++ appended ∧
      ∀ r ∈ appended, r.URL ≠ "http://example.com/logo.png") :=
  have hreach : Reachable sampleLib emptyFS ["http://example.com/logo.png"]
      (NewCrawler (sampleConfig 2 1 true) 0) droppedImage := ⟨droppedImageSchedule, rfl⟩
  have hperm : reversedTable.excludeRegex.Perm excludePatterns := List.reverse_perm _
  ⟨Or.inl (by decide), hperm, hreach,
    C5_excluded_url_never_crawled "http://example.com/logo.png" (Or.inl (by decide))
      reversedTable hperm sampleLib emptyFS ["http://example.com/logo.png"]
      (sampleConfig 2 1 true) 0 droppedImage hreach⟩

/-! ## Depth bound -/

theorem start_config (lib : Lib) (fs : FileSystem) (sitemapURLs : List String)
    (c : Crawler) : (Start lib fs sitemapURLs c).c.config = c.config := by
  simp only [Start, LoadCheckpoint]
  split
  · rfl
  · split <;> rfl

theorem depthInv_start (lib : Lib) (fs : FileSystem) (sitemapURLs : List String)
    (c : Crawler) (B : Int) :
    DepthInv B (Start lib fs sitemapURLs c).c.results (Start lib fs sitemapURLs c) := by
  refine ⟨?_, ?_, ?_, ⟨[], by simp, by simp⟩⟩
  · intro j hj
    simp [Start] at hj
  · intro pc hpc
    simp only [Start, List.mem_replicate] at hpc
    rw [hpc.2]; trivial
  · rw [start_config]
    simp only [Start]
    split
    · intro _; assumption
    · intro h; simp [MainPC.inSitemap] at h

/-- Replacing the program counter of one worker keeps the depth invariant when
the new counter carries its depth facts. -/
theorem depthInv_set (B : Int) (r0 : List PageResult) (s t : State) (i : Nat) (pc : WorkerPC)
    (h : DepthInv B r0 s) (hw : t.workers = s.workers.set i pc) (hj : ∀ j ∈ t.jobs, j.Depth ≤ B)
    (hm : t.main = s.main) (hc : t.c.config = s.c.config)
    (hres : ∃ appended, t.c.results = r0 ++ appended ∧ ∀ r ∈ appended, r.Depth ≤ B)
    (hpc : pc.depthOk B s.c.config.MaxDepth) : DepthInv B r0 t := by
  refine ⟨hj, ?_, ?_, hres⟩
  · intro q hq
    rw [hw] at hq
    rw [hc]
    rcases mem_set_cases _ _ _ _ hq with hq | hq
    · exact h.workers q hq
    · rw [hq]; exact hpc
  · rw [hm, hc]; exact h.sitemap

/-- A move of `Start` or of the monitor keeps the depth invariant. -/
theorem depthInv_main (B : Int) (r0 : List PageResult) (s t : State)
    (h : DepthInv B r0 s) (hw : t.workers = s.workers) (hj : ∀ j ∈ t.jobs, j.Depth ≤ B)
    (hm : t.main.inSitemap = true → s.main.inSitemap = true) (hc : t.c.config = s.c.config)
    (hres : t.c.results = s.c.results) : DepthInv B r0 t := by
  refine ⟨hj, ?_, ?_, ?_⟩
  · rw [hw, hc]; exact h.workers
  · rw [hc]; exact fun ht => h.sitemap (hm ht)
  · rw [hres]; exact h.results

theorem mem_append_singleton_depth (B : Int) (l : List CrawlJob) (j : CrawlJob)
    (hl : ∀ x ∈ l, x.Depth ≤ B) (hj : j.Depth ≤ B) : ∀ x ∈ l ++ [j], x.Depth ≤ B := by
  intro x hx
  rcases List.mem_append.mp hx with hx | hx
  · exact hl x hx
  · rw [List.mem_singleton.mp hx]; exact hj

/-- Every transition keeps the depth invariant for a bound that is at least
zero, at least `MaxDepth`, and at least one when sitemap discovery is on. -/
theorem depthInv_step (lib : Lib) (B : Int) (r0 : List PageResult) (s t : State)
    (hstep : Step lib s t) (hB0 : 0 ≤ B) (hB : s.c.config.MaxDepth ≤ B)
    (hB1 : s.c.config.UseSitemap = true → 1 ≤ B) (h : DepthInv B r0 s) : DepthInv B r0 t := by
  cases hstep with
  | panic => exact depthInv_main B r0 s _ h rfl h.jobs (fun x => x) rfl rfl
  | sitemapDone hm =>
    exact depthInv_main B r0 s _ h rfl h.jobs (fun x => by simp [MainPC.inSitemap] at x) rfl rfl
  | sitemapAccept url rest hm hv hd =>
    exact depthInv_main B r0 s _ h rfl h.jobs (fun _ => by simp [hm, MainPC.inSitemap]) rfl rfl
  | sitemapReject url rest hm =>
    exact depthInv_main B r0 s _ h rfl h.jobs (fun _ => by simp [hm, MainPC.inSitemap]) rfl rfl
  | sitemapCount url rest hm =>
    exact depthInv_main B r0 s _ h rfl h.jobs (fun _ => by simp [hm, MainPC.inSitemap]) rfl rfl
  | sitemapSend url rest hm hc =>
    have h1 : (1 : Int) ≤ B := hB1 (h.sitemap (by simp [hm, MainPC.inSitemap]))
    exact depthInv_main B r0 s _ h rfl (mem_append_singleton_depth B _ _ h.jobs h1)
      (fun _ => by simp [hm, MainPC.inSitemap]) rfl rfl
  | baseAccept hm hv =>
    exact depthInv_main B r0 s _ h rfl h.jobs (fun x => by simp [MainPC.inSitemap] at x) rfl rfl
  | baseSkip hm =>
    exact depthInv_main B r0 s _ h rfl h.jobs (fun x => by simp [MainPC.inSitemap] at x) rfl rfl
  | baseCount hm =>
    exact depthInv_main B r0 s _ h rfl h.jobs (fun x => by simp [MainPC.inSitemap] at x) rfl rfl
  | baseSend hm hc =>
    exact depthInv_main B r0 s _ h rfl (mem_append_singleton_depth B _ _ h.jobs hB0)
      (fun x => by simp [MainPC.inSitemap] at x) rfl rfl
  | monitorZero hm hz =>
    exact depthInv_main B r0 s _ h rfl h.jobs (fun x => by simp [MainPC.inSitemap] at x) rfl rfl
  | monitorBusy hm => exact h
  | graceClose hm hz =>
    exact depthInv_main B r0 s _ h rfl h.jobs (fun x => by simp [MainPC.inSitemap] at x) rfl rfl
  | graceResume hm =>
    exact depthInv_main B r0 s _ h rfl h.jobs (fun x => by simp [MainPC.inSitemap] at x) rfl rfl
  | receive i job rest hpc hj =>
    have hjobs := h.jobs
    rw [hj] at hjobs
    exact depthInv_set B r0 s _ i _ h rfl (fun j hjm => hjobs j (List.mem_cons_of_mem _ hjm)) rfl rfl
      h.results (hjobs job (List.mem_cons_self _ _))
  | exit i hpc hj hc => exact depthInv_set B r0 s _ i _ h rfl h.jobs rfl rfl h.results trivial
  | decrement i job hpc =>
    have hold := h.workers _ (mem_of_get? _ _ _ hpc)
    exact depthInv_set B r0 s _ i _ h rfl h.jobs rfl rfl h.results hold
  | skip i job hpc hs =>
    have hso := shouldSkip_statsOnly lib s.c job.URL
    exact depthInv_set B r0 s _ i _ h rfl h.jobs rfl hso.config
      (by show ∃ appended, (shouldSkip lib s.c job.URL).2.results = r0 ++ appended ∧ _
          rw [hso.results]; exact h.results) trivial
  | pass i job hpc hs =>
    have hold := h.workers _ (mem_of_get? _ _ _ hpc)
    have hso := shouldSkip_statsOnly lib s.c job.URL
    exact depthInv_set B r0 s _ i _ h rfl h.jobs rfl hso.config
      (by show ∃ appended, (shouldSkip lib s.c job.URL).2.results = r0 ++ appended ∧ _
          rw [hso.results]; exact h.results) hold
  | mark i job hpc =>
    have hold := h.workers _ (mem_of_get? _ _ _ hpc)
    exact depthInv_set B r0 s _ i _ h rfl h.jobs rfl rfl h.results hold
  | fetch i job now o result c hpc hf =>
    obtain ⟨_, hd, hso⟩ := crawlPage_frame lib s.c job.URL job.Depth now o result c hf
    have hjd : job.Depth ≤ B := h.workers _ (mem_of_get? _ _ _ hpc)
    exact depthInv_set B r0 s _ i _ h rfl h.jobs rfl hso.config
      (by show ∃ appended, c.results = r0 ++ appended ∧ _
          rw [hso.results]; exact h.results)
      (by show result.Depth ≤ B
          rw [hd]; exact hjd)
  | addDeeper i job result hpc hd =>
    have hr : result.Depth ≤ B := h.workers _ (mem_of_get? _ _ _ hpc)
    obtain ⟨app, ha, hall⟩ := h.results
    refine depthInv_set B r0 s _ i _ h rfl h.jobs rfl rfl ⟨app ++ [result], ?_, ?_⟩ hd
    · show s.c.results ++ [result] = r0 ++ (app ++ [result])
      rw [ha, List.append_assoc]
    · intro r hr'
      rcases List.mem_append.mp hr' with hr' | hr'
      · exact hall r hr'
      · rw [List.mem_singleton.mp hr']; exact hr
  | addLeaf i job result hpc hd =>
    have hr : result.Depth ≤ B := h.workers _ (mem_of_get? _ _ _ hpc)
    obtain ⟨app, ha, hall⟩ := h.results
    refine depthInv_set B r0 s _ i _ h rfl h.jobs rfl rfl ⟨app ++ [result], ?_, ?_⟩ trivial
    · show s.c.results ++ [result] = r0 ++ (app ++ [result])
      rw [ha, List.append_assoc]
    · intro r hr'
      rcases List.mem_append.mp hr' with hr' | hr'
      · exact hall r hr'
      · rw [List.mem_singleton.mp hr']; exact hr
  | linksDone i job hpc => exact depthInv_set B r0 s _ i _ h rfl h.jobs rfl rfl h.results trivial
  | linkAccept i job link rest hpc ha =>
    have hold := h.workers _ (mem_of_get? _ _ _ hpc)
    have hso := acceptLink_statsOnly lib s.c link
    exact depthInv_set B r0 s _ i _ h rfl h.jobs rfl hso.config
      (by show ∃ appended, (acceptLink lib s.c link).2.results = r0 ++ appended ∧ _
          rw [hso.results]; exact h.results) hold
  | linkReject i job link rest hpc ha =>
    have hold := h.workers _ (mem_of_get? _ _ _ hpc)
    have hso := acceptLink_statsOnly lib s.c link
    exact depthInv_set B r0 s _ i _ h rfl h.jobs rfl hso.config
      (by show ∃ appended, (acceptLink lib s.c link).2.results = r0 ++ appended ∧ _
          rw [hso.results]; exact h.results) hold
  | count i job link rest hpc =>
    have hold := h.workers _ (mem_of_get? _ _ _ hpc)
    exact depthInv_set B r0 s _ i _ h rfl h.jobs rfl rfl h.results hold
  | workerSend i job link rest hpc hc =>
    have hd : job.Depth < s.c.config.MaxDepth := h.workers _ (mem_of_get? _ _ _ hpc)
    have hd' : job.Depth + 1 ≤ B := by omega
    exact depthInv_set B r0 s _ i _ h rfl (mem_append_singleton_depth B _ _ h.jobs hd') rfl rfl
      h.results hd

theorem depthInv_reachable (lib : Lib) (fs : FileSystem) (sitemapURLs : List String)
    (c : Crawler) (B : Int) (hB0 : 0 ≤ B) (hB : c.config.MaxDepth ≤ B)
    (hB1 : c.config.UseSitemap = true → 1 ≤ B) (s : State)
    (hs : Reachable lib fs sitemapURLs c s) :
    s.c.config = c.config ∧ DepthInv B (Start lib fs sitemapURLs c).c.results s := by
  refine reachable_induction lib fs sitemapURLs c
    (fun s => s.c.config = c.config ∧ DepthInv B (Start lib fs sitemapURLs c).c.results s)
    ⟨start_config lib fs sitemapURLs c, depthInv_start lib fs sitemapURLs c B⟩ ?_ s hs
  rintro a b ⟨hc, hd⟩ hstep
  refine ⟨by rw [(step_stable lib a b hstep).1, hc], ?_⟩
  exact depthInv_step lib B _ a b hstep hB0 (hc ▸ hB) (hc ▸ hB1) hd

/-- C6 (counterexample): with `MaxDepth = 0` and sitemap discovery on, the page
of a sitemap URL is crawled at depth 1, so a `PageResult` with `Depth` above
`MaxDepth` is appended. -/
theorem C6_sitemap_result_above_max_depth :
    (sampleConfig 0 1 true).MaxDepth = 0 ∧
    sitemapAtDepthZero.map (fun s => s.c.results.map (fun r => (r.URL, r.Depth)))
      = some [("http://example.com/x", 1)] := by
  decide

/-- C6 (amended): for every configuration with `MaxDepth >= 0` and every run,
every `PageResult` appended to the results has `Depth <= max(MaxDepth, 1)`, and
`Depth <= MaxDepth` when sitemap discovery is off or `MaxDepth >= 1` (sitemap
URLs are crawled at depth 1 whatever `MaxDepth` is); and a worker that holds a
job of depth `MaxDepth` or more is never in the link loop, so it enqueues no
child job. -/
theorem C6_depth_bound (lib : Lib) (fs : FileSystem) (sitemapURLs : List String)
    (c : Crawler) (h0 : 0 ≤ c.config.MaxDepth) (s : State)
    (hs : Reachable lib fs sitemapURLs c s) :
    (∃ appended, s.c.results = (Start lib fs sitemapURLs c).c.results ++ appended ∧
      ∀ r ∈ appended, r.Depth ≤ max c.config.MaxDepth 1 ∧
        ((c.config.UseSitemap = false ∨ 1 ≤ c.config.MaxDepth) →
          r.Depth ≤ c.config.MaxDepth)) ∧
    (∀ pc ∈ s.workers, ∀ job, pc.job = some job → c.config.MaxDepth ≤ job.Depth →
      pc.enqueuing = none ∧ ∀ links, pc ≠ .linking job links) := by
  obtain ⟨hc, hd⟩ := depthInv_reachable lib fs sitemapURLs c (max c.config.MaxDepth 1)
    (by omega) (by omega) (fun _ => by omega) s hs
  constructor
  · obtain ⟨app, ha, hall⟩ := hd.results
    refine ⟨app, ha, fun r hr => ⟨hall r hr, fun hcond => ?_⟩⟩
    obtain ⟨_, hd'⟩ := depthInv_reachable lib fs sitemapURLs c c.config.MaxDepth h0
      (le_refl _) (fun hu => by
        rcases hcond with hcond | hcond
        · rw [hcond] at hu; cases hu
        · exact hcond) s hs
    obtain ⟨app', ha', hall'⟩ := hd'.results
    have : app = app' := List.append_cancel_left (ha.symm.trans ha')
    exact hall' r (this ▸ hr)
  · intro pc hpc job hjob hge
    have hok := hd.workers pc hpc
    rw [hc] at hok
    cases pc with
    | linking j l =>
      simp only [WorkerPC.job, Option.some.injEq] at hjob
      subst hjob
      have : j.Depth < c.config.MaxDepth := hok
      omega
    | counting j l r =>
      simp only [WorkerPC.job, Option.some.injEq] at hjob
      subst hjob
      have : j.Depth < c.config.MaxDepth := hok
      omega
    | sending j l r =>
      simp only [WorkerPC.job, Option.some.injEq] at hjob
      subst hjob
      have : j.Depth < c.config.MaxDepth := hok
      omega
    | _ => exact ⟨rfl, fun links hne => by cases hne⟩

/-- C6 (witness): the run with `MaxDepth = 0` in which the worker has crawled
the sitemap URL at depth 1. -/
theorem C6_depth_bound_witness :
    0 ≤ (NewCrawler (sampleConfig 0 1 true) 0).config.MaxDepth ∧
    Reachable sampleLib emptyFS ["http://example.com/x"] (NewCrawler (sampleConfig 0 1 true) 0)
      sitemapAtDepthZeroState ∧
    ((∃ appended, sitemapAtDepthZeroState.c.results
        = (Start sampleLib emptyFS ["http://example.com/x"]
            (NewCrawler (sampleConfig 0 1 true) 0)).c.results ++ appended ∧
      ∀ r ∈ appended, r.Depth ≤ max (NewCrawler (sampleConfig 0 1 true) 0).config.MaxDepth 1 ∧
        (((NewCrawler (sampleConfig 0 1 true) 0).config.UseSitemap = false ∨
            1 ≤ (NewCrawler (sampleConfig 0 1 true) 0).config.MaxDepth) →
          r.Depth ≤ (NewCrawler (sampleConfig 0 1 true) 0).config.MaxDepth)) ∧
    (∀ pc ∈ sitemapAtDepthZeroState.workers, ∀ job, pc.job = some job →
      (NewCrawler (sampleConfig 0 1 true) 0).config.MaxDepth ≤ job.Depth →
      pc.enqueuing = none ∧ ∀ links, pc ≠ .linking job links)) :=
  have hreach : Reachable sampleLib emptyFS ["http://example.com/x"]
      (NewCrawler (sampleConfig 0 1 true) 0) sitemapAtDepthZeroState :=
    ⟨sitemapAtDepthZeroSchedule, rfl⟩
  ⟨by decide, hreach,
    C6_depth_bound sampleLib emptyFS ["http://example.com/x"]
      (NewCrawler (sampleConfig 0 1 true) 0) (by decide) sitemapAtDepthZeroState hreach⟩

/-! ## Enqueuing and the visited set -/

/-- Every transition keeps `SendFree` for a URL that is in the visited
set. -/
theorem sendFree_step (lib : Lib) (u : String) (sent0 : List (Sender × CrawlJob))
    (s t : State) (hstep : Step lib s t) (hv : u ∈ s.c.visited) (h : SendFree u sent0 s) :
    SendFree u sent0 t := by
  have hcfg := (step_stable lib s t hstep).1
  have hadm : ∀ v, (acceptLink lib s.c v).1 = true → v ≠ u := by
    rintro v hf rfl
    rw [acceptLink_of_visited lib s.c v hv] at hf
    cases hf
  have hmain := h.main
  have hsent := h.sent
  have hset : ∀ (i : Nat) (pc : WorkerPC), t.workers = s.workers.set i pc →
      pc.enqueuing ≠ some u → ∀ q ∈ t.workers, q.enqueuing ≠ some u := by
    intro i pc hw hpc q hq
    rw [hw] at hq
    rcases mem_set_cases _ _ _ _ hq with hq | hq
    · exact h.workers q hq
    · rw [hq]; exact hpc
  have hgrow : ∀ (x : Sender × CrawlJob), x.2.URL ≠ u →
      ∃ more, s.sent ++ [x] = sent0 ++ more ∧ ∀ y ∈ more, y.2.URL ≠ u := by
    intro x hx
    obtain ⟨more, hm, hall⟩ := hsent
    refine ⟨more ++ [x], by rw [hm, List.append_assoc], ?_⟩
    intro y hy
    rcases List.mem_append.mp hy with hy | hy
    · exact hall y hy
    · rw [List.mem_singleton.mp hy]; exact hx
  constructor
  · cases hstep with
    | receive i job rest hpc hj => exact hset i _ rfl (by simp [WorkerPC.enqueuing])
    | exit i hpc hj hc => exact hset i _ rfl (by simp [WorkerPC.enqueuing])
    | decrement i job hpc => exact hset i _ rfl (by simp [WorkerPC.enqueuing])
    | skip i job hpc hs => exact hset i _ rfl (by simp [WorkerPC.enqueuing])
    | pass i job hpc hs => exact hset i _ rfl (by simp [WorkerPC.enqueuing])
    | mark i job hpc => exact hset i _ rfl (by simp [WorkerPC.enqueuing])
    | fetch i job now o result c hpc hf => exact hset i _ rfl (by simp [WorkerPC.enqueuing])
    | addDeeper i job result hpc hd => exact hset i _ rfl (by simp [WorkerPC.enqueuing])
    | addLeaf i job result hpc hd => exact hset i _ rfl (by simp [WorkerPC.enqueuing])
    | linksDone i job hpc => exact hset i _ rfl (by simp [WorkerPC.enqueuing])
    | linkAccept i job link rest hpc ha =>
      exact hset i _ rfl (by simpa [WorkerPC.enqueuing] using hadm _ ha)
    | linkReject i job link rest hpc ha => exact hset i _ rfl (by simp [WorkerPC.enqueuing])
    | count i job link rest hpc =>
      have hold := h.workers _ (mem_of_get? _ _ _ hpc)
      exact hset i _ rfl (by simpa [WorkerPC.enqueuing] using hold)
    | workerSend i job link rest hpc hc => exact hset i _ rfl (by simp [WorkerPC.enqueuing])
    | _ => exact h.workers
  · rw [hcfg]
    cases hstep with
    | sitemapAccept url rest hm hvis hd =>
      simp only [MainPC.enqueuing, ne_eq, Option.some.injEq]
      rintro rfl
      simp [isVisited, hv] at hvis
    | baseAccept hm hvis =>
      simp only [MainPC.enqueuing, ne_eq, Option.some.injEq]
      intro e
      rw [e] at hvis
      simp [isVisited, hv] at hvis
    | sitemapCount url rest hm => simpa [hm, MainPC.enqueuing] using hmain
    | baseCount hm => simpa [hm, MainPC.enqueuing] using hmain
    | monitorBusy hm => exact hmain
    | panic => exact hmain
    | receive i job rest hpc hj => exact hmain
    | exit i hpc hj hc => exact hmain
    | decrement i job hpc => exact hmain
    | skip i job hpc hs => exact hmain
    | pass i job hpc hs => exact hmain
    | mark i job hpc => exact hmain
    | fetch i job now o result c hpc hf => exact hmain
    | addDeeper i job result hpc hd => exact hmain
    | addLeaf i job result hpc hd => exact hmain
    | linksDone i job hpc => exact hmain
    | linkAccept i job link rest hpc ha => exact hmain
    | linkReject i job link rest hpc ha => exact hmain
    | count i job link rest hpc => exact hmain
    | workerSend i job link rest hpc hc => exact hmain
    | _ => simp [MainPC.enqueuing]
  · cases hstep with
    | sitemapSend url rest hm hc =>
      exact hgrow _ (by simpa [hm, MainPC.enqueuing] using hmain)
    | baseSend hm hc =>
      exact hgrow _ (by simpa [hm, MainPC.enqueuing] using hmain)
    | workerSend i job link rest hpc hc =>
      have hold := h.workers _ (mem_of_get? _ _ _ hpc)
      exact hgrow _ (by simpa [WorkerPC.enqueuing] using hold)
    | _ => exact hsent

/-- C3 (counterexample): one worker crawls a base page that links to `/a`
twice; both links pass the visited check, because `/a` is marked visited only
when its job is processed, and two jobs for `/a` are enqueued. -/
theorem C3_same_link_enqueued_twice :
    repeatedLink.map (fun s => (s.sent, s.c.visited))
      = some ([(.start, { URL := "http://example.com/", Depth := 0 }),
               (.worker 0, { URL := "http://example.com/a", Depth := 1 }),
               (.worker 0, { URL := "http://example.com/a", Depth := 1 })],
              ["http://example.com/"]) := by
  decide

/-- C3 (amended): from every state in which `u` is in the visited set and neither
`Start` nor a worker stands between a passed enqueue check for `u` and the send
of that job, under every schedule `u` stays in the visited set and no job for
`u` is sent in the rest of the run. -/
theorem C3_no_enqueue_once_visited (lib : Lib) (u : String) (s t : State)
    (acts : List Action) (hv : u ∈ s.c.visited)
    (hw : ∀ pc ∈ s.workers, pc.enqueuing ≠ some u)
    (hm : s.main.enqueuing s.c.config.BaseURL ≠ some u)
    (hrun : run lib s acts = some t) :
    u ∈ t.c.visited ∧ ∃ more, t.sent = s.sent ++ more ∧ ∀ x ∈ more, x.2.URL ≠ u := by
  have hinv : u ∈ t.c.visited ∧ SendFree u s.sent t := by
    refine run_induction lib (fun t => u ∈ t.c.visited ∧ SendFree u s.sent t) ?_ acts s t
      ⟨hv, hw, hm, [], by simp, by simp⟩ hrun
    rintro a b ⟨hva, hg⟩ hstep
    exact ⟨(step_stable lib a b hstep).2.2.1 u hva, sendFree_step lib u s.sent a b hstep hva hg⟩
  exact ⟨hinv.1, hinv.2.sent⟩

/-- C3 (witness): the run on the page that links to `/a` twice, from the state
in which the worker has marked `/a` visited; the second job for `/a` was sent
before, and the link back to `/a` found later is not enqueued. -/
theorem C3_no_enqueue_once_visited_witness :
    "http://example.com/a" ∈ afterFirstA.c.visited ∧
    (∀ pc ∈ afterFirstA.workers, pc.enqueuing ≠ some "http://example.com/a") ∧
    afterFirstA.main.enqueuing afterFirstA.c.config.BaseURL ≠ some "http://example.com/a" ∧
    run sampleLib afterFirstA afterFirstARest = some afterFirstAEnd ∧
    ("http://example.com/a" ∈ afterFirstAEnd.c.visited ∧
      ∃ more, afterFirstAEnd.sent = afterFirstA.sent ++ more ∧
        ∀ x ∈ more, x.2.URL ≠ "http://example.com/a") :=
  ⟨by decide, by decide, by decide, rfl,
    C3_no_enqueue_once_visited sampleLib "http://example.com/a" afterFirstA afterFirstAEnd
      afterFirstARest (by decide) (by decide) (by decide) rfl⟩

/-! ## Termination accounting -/

/-- C1: the code decrements `activeJobs` as soon as a job is received. With one
worker and the base URL as the only job, the run reaches a state in which the
job is being fetched, the queue is empty and `activeJobs` is zero; the monitor
can then load zero twice and close the channel during the fetch, and the
worker's send of the child job it finds panics on the closed channel. -/
theorem C1_activeJobs_zero_while_fetching :
    midFetch.map (fun s => (s.c.activeJobs, s.jobs, s.workers))
      = some (0, [], [.fetching { URL := "http://example.com/", Depth := 0 }]) ∧
    closedDuringFetch.map (fun s => (s.closed, s.panicked, s.workers))
      = some (true, true,
          [.sending { URL := "http://example.com/", Depth := 0 } "http://example.com/a" []]) := by
  decide

/-! ## Results per URL -/

/-- C2: with two workers and a sitemap that lists the base URL, `Start` enqueues
the URL twice; both workers run `shouldSkip` before either marks the URL
visited, both crawl it, and the run ends with two results for the same URL. -/
theorem C2_two_results_for_one_url :
    racingRun.map (fun s => (s.workers, s.c.results.map (fun r => r.URL)))
      = some ([.exited, .exited], ["http://example.com/", "http://example.com/"]) := by
  decide

/-- C10: in the run of two workers on a sitemap that lists the base URL, which
starts from zero counters, `PagesCrawled + Errors` is 2 and two results were appended, but only
one distinct URL passed `shouldSkip`. -/
theorem C10_counters_exceed_distinct_urls :
    racingRun.map (fun s => (s.c.stats.PagesCrawled + s.c.stats.Errors, s.c.results.length,
        (s.c.results.map (fun r => r.URL)).dedup.length, s.c.visited.length))
      = some (2, 2, 1, 1) := by
  decide

/-! ## Domain filter -/

/-- C4: in the scenario (seed `http://example.com/` at depth 0, domain
`example.com`, links to `/a`, `http://other.com/b` and `/c.png`) the worker
enqueues exactly one child job, `/a` at depth 1, and `ExcludedLinks` grows by
one, but `ExternalLinks` stays at zero: no code path adds to it. -/
theorem C4_external_links_not_counted :
    threeLinks.map (fun s =>
        (s.sent.filter (fun x => decide (x.1 ≠ Sender.start)), s.c.stats.ExcludedLinks,
          s.c.stats.ExternalLinks))
      = some ([(.worker 0, { URL := "http://example.com/a", Depth := 1 })], 1, 0) := by
  decide

/-- In every run `ExternalLinks` keeps the value it had when `Start` began. -/
theorem externalLinks_constant (lib : Lib) (fs : FileSystem) (sitemapURLs : List String)
    (c : Crawler) (s : State) (hs : Reachable lib fs sitemapURLs c s) :
    s.c.stats.ExternalLinks = (Start lib fs sitemapURLs c).c.stats.ExternalLinks := by
  refine reachable_induction lib fs sitemapURLs c
    (fun s => s.c.stats.ExternalLinks = (Start lib fs sitemapURLs c).c.stats.ExternalLinks)
    rfl ?_ s hs
  intro a b ha hstep
  rw [(step_stable lib a b hstep).2.2.2, ha]

/-- In every run no worker sends a job for a link that `isAllowedDomain`
rejects, and no worker crawls such a URL. -/
theorem foreign_link_never_enqueued (lib : Lib) (fs : FileSystem) (sitemapURLs : List String)
    (c : Crawler) (u : String) (hu : isAllowedDomain lib c u = false) (s : State)
    (hs : Reachable lib fs sitemapURLs c s) :
    (∀ i j, (Sender.worker i, j) ∈ s.sent → j.URL ≠ u) ∧
    (∀ pc ∈ s.workers, pc.crawling ≠ some u) := by
  have hdom : ∀ c' : Crawler, c'.config = c.config → isAllowedDomain lib c' u = false := by
    intro c' hc
    simpa [isAllowedDomain, hc] using hu
  have hinv : s.c.config = c.config ∧
      WorkerFree u (Start lib fs sitemapURLs c).c.results s := by
    refine reachable_induction lib fs sitemapURLs c
      (fun s => s.c.config = c.config ∧ WorkerFree u (Start lib fs sitemapURLs c).c.results s)
      ⟨start_config lib fs sitemapURLs c, workerFree_start lib fs sitemapURLs c u⟩ ?_ s hs
    rintro a b ⟨hc, hw⟩ hstep
    refine ⟨by rw [(step_stable lib a b hstep).1, hc], ?_⟩
    refine workerFree_step lib u _ a b hstep ?_ ?_ hw
    · rintro v hf rfl
      simp [shouldSkip, hdom a.c hc] at hf
    · rintro v hf rfl
      simp [acceptLink, hdom a.c hc] at hf
  exact ⟨hinv.2.sent, hinv.2.crawling⟩

/-! ## Counters and results -/

theorem shouldSkip_frame (lib : Lib) (c : Crawler) (u : String) :
    ∃ f e, (shouldSkip lib c u).2 = withFoundExcluded c f e := by
  unfold shouldSkip
  split
  · exact ⟨_, _, (withFoundExcluded_self c).symm⟩
  · split
    · exact ⟨_, _, (withFoundExcluded_self c).symm⟩
    · exact shouldExclude_frame c u

theorem acceptLink_frame (lib : Lib) (c : Crawler) (u : String) :
    ∃ f e, (acceptLink lib c u).2 = withFoundExcluded c f e := by
  unfold acceptLink
  split
  · exact ⟨_, _, (withFoundExcluded_self c).symm⟩
  · split
    · exact ⟨_, _, (withFoundExcluded_self c).symm⟩
    · exact shouldExclude_frame c u

/-- Every call of `crawlPage` that returns adds exactly one to
`PagesCrawled + Errors` and leaves the results alone. -/
theorem crawlPage_counts (lib : Lib) (c : Crawler) (pageURL : String) (depth : Int) (now : Nat)
    (o : FetchOutcome) (r : PageResult) (c' : Crawler)
    (h : crawlPage lib c pageURL depth now o = some (r, c')) :
    c'.stats.PagesCrawled + c'.stats.Errors = c.stats.PagesCrawled + c.stats.Errors + 1 ∧
      c'.results = c.results := by
  unfold crawlPage at h
  cases hp : lib.urlParse pageURL with
  | error msg =>
    simp only [hp, Option.some.injEq, Prod.mk.injEq] at h
    obtain ⟨_, h2⟩ := h
    subst h2
    exact ⟨by simp only [addError]; omega, rfl⟩
  | ok b =>
    simp only [hp] at h
    cases o with
    | transportError msg =>
      simp only [Option.some.injEq, Prod.mk.injEq] at h
      obtain ⟨_, h2⟩ := h
      subst h2
      exact ⟨by simp only [addError]; omega, rfl⟩
    | response status contentType doc =>
      simp only at h
      split at h
      · simp only [Option.some.injEq, Prod.mk.injEq] at h
        obtain ⟨_, h2⟩ := h
        subst h2
        exact ⟨by simp only [addError]; omega, rfl⟩
      · split at h
        · cases doc with
          | none =>
            simp only [Option.some.injEq, Prod.mk.injEq] at h
            obtain ⟨_, h2⟩ := h
            subst h2
            exact ⟨by simp only [addCrawled]; omega, rfl⟩
          | some d =>
            obtain ⟨links', f, e, hl⟩ := extractLinksLoop_spec lib pageURL b hp (hrefsOf d) []
              (addCrawled c)
            simp only [extractLinks, hl, Option.some.injEq, Prod.mk.injEq] at h
            obtain ⟨_, h2⟩ := h
            subst h2
            exact ⟨by simp only [withFoundExcluded, addCrawled]; omega, rfl⟩
        · simp only [Option.some.injEq, Prod.mk.injEq] at h
          obtain ⟨_, h2⟩ := h
          subst h2
          exact ⟨by simp only [addCrawled]; omega, rfl⟩

theorem countP_set_eq {α : Type} (p : α → Bool) (l : List α) (i : Nat) (old new : α)
    (h : l.get? i = some old) :
    (l.set i new).countP p + (if p old then 1 else 0)
      = l.countP p + (if p new then 1 else 0) := by
  induction l generalizing i with
  | nil => simp at h
  | cons x xs ih =>
    cases i with
    | zero =>
      simp only [List.get?_cons_zero, Option.some.injEq] at h
      subst h
      simp only [List.set_cons_zero, List.countP_cons]
      omega
    | succ n =>
      simp only [List.get?_cons_succ] at h
      have := ih n h
      simp only [List.set_cons_succ, List.countP_cons]
      omega

theorem addingCount_set (workers : List WorkerPC) (i : Nat) (old new : WorkerPC)
    (h : workers.get? i = some old) :
    addingCount (workers.set i new) + (if old.isAdding then 1 else 0)
      = addingCount workers + (if new.isAdding then 1 else 0) := by
  have := countP_set_eq WorkerPC.isAdding workers i old new h
  unfold addingCount
  split <;> split <;> simp_all
  all_goals omega
/-- Every transition keeps the counters matched with the results. -/
theorem accounted_step (lib : Lib) (s0 s t : State) (hstep : Step lib s t)
    (h : Accounted s0 s) : Accounted s0 t := by
  unfold Accounted at h ⊢
  cases hstep with
  | receive i job rest hpc hj =>
    have hcnt := addingCount_set s.workers i _ (.received job) hpc
    simp only [State.setWorker, WorkerPC.isAdding] at hcnt ⊢
    simp only [Bool.false_eq_true, if_false] at hcnt
    omega
  | exit i hpc hj hc =>
    have hcnt := addingCount_set s.workers i _ .exited hpc
    simp only [State.setWorker, WorkerPC.isAdding] at hcnt ⊢
    simp only [Bool.false_eq_true, if_false] at hcnt
    omega
  | decrement i job hpc =>
    have hcnt := addingCount_set s.workers i _ (.checking job) hpc
    simp only [State.setWorker, WorkerPC.isAdding, addActive] at hcnt ⊢
    simp only [Bool.false_eq_true, if_false] at hcnt
    omega
  | skip i job hpc hs =>
    have hcnt := addingCount_set s.workers i _ .idle hpc
    obtain ⟨f, e, hfe⟩ := shouldSkip_frame lib s.c job.URL
    simp only [State.setWorker, WorkerPC.isAdding, hfe, withFoundExcluded] at hcnt ⊢
    simp only [Bool.false_eq_true, if_false] at hcnt
    omega
  | pass i job hpc hs =>
    have hcnt := addingCount_set s.workers i _ (.marking job) hpc
    obtain ⟨f, e, hfe⟩ := shouldSkip_frame lib s.c job.URL
    simp only [State.setWorker, WorkerPC.isAdding, hfe, withFoundExcluded] at hcnt ⊢
    simp only [Bool.false_eq_true, if_false] at hcnt
    omega
  | mark i job hpc =>
    have hcnt := addingCount_set s.workers i _ (.fetching job) hpc
    simp only [State.setWorker, WorkerPC.isAdding, markVisited] at hcnt ⊢
    simp only [Bool.false_eq_true, if_false] at hcnt
    omega
  | fetch i job now o result c hpc hf =>
    have hcnt := addingCount_set s.workers i _ (.adding job result) hpc
    obtain ⟨hc1, hc2⟩ := crawlPage_counts lib s.c job.URL job.Depth now o result c hf
    simp only [State.setWorker, WorkerPC.isAdding, hc2] at hcnt ⊢
    simp only [Bool.false_eq_true, if_false, if_true] at hcnt
    omega
  | addDeeper i job result hpc hd =>
    have hcnt := addingCount_set s.workers i _ (.linking job result.Links) hpc
    simp only [State.setWorker, WorkerPC.isAdding, addResult, List.length_append,
      List.length_singleton] at hcnt ⊢
    simp only [Bool.false_eq_true, if_false, if_true] at hcnt
    omega
  | addLeaf i job result hpc hd =>
    have hcnt := addingCount_set s.workers i _ .idle hpc
    simp only [State.setWorker, WorkerPC.isAdding, addResult, List.length_append,
      List.length_singleton] at hcnt ⊢
    simp only [Bool.false_eq_true, if_false, if_true] at hcnt
    omega
  | linksDone i job hpc =>
    have hcnt := addingCount_set s.workers i _ .idle hpc
    simp only [State.setWorker, WorkerPC.isAdding] at hcnt ⊢
    simp only [Bool.false_eq_true, if_false] at hcnt
    omega
  | linkAccept i job link rest hpc ha =>
    have hcnt := addingCount_set s.workers i _ (.counting job link rest) hpc
    obtain ⟨f, e, hfe⟩ := acceptLink_frame lib s.c link
    simp only [State.setWorker, WorkerPC.isAdding, hfe, withFoundExcluded] at hcnt ⊢
    simp only [Bool.false_eq_true, if_false] at hcnt
    omega
  | linkReject i job link rest hpc ha =>
    have hcnt := addingCount_set s.workers i _ (.linking job rest) hpc
    obtain ⟨f, e, hfe⟩ := acceptLink_frame lib s.c link
    simp only [State.setWorker, WorkerPC.isAdding, hfe, withFoundExcluded] at hcnt ⊢
    simp only [Bool.false_eq_true, if_false] at hcnt
    omega
  | count i job link rest hpc =>
    have hcnt := addingCount_set s.workers i _ (.sending job link rest) hpc
    simp only [State.setWorker, WorkerPC.isAdding, addActive] at hcnt ⊢
    simp only [Bool.false_eq_true, if_false] at hcnt
    omega
  | workerSend i job link rest hpc hc =>
    have hcnt := addingCount_set s.workers i _ (.linking job rest) hpc
    simp only [State.setWorker, WorkerPC.isAdding] at hcnt ⊢
    simp only [Bool.false_eq_true, if_false] at hcnt
    omega
  | _ => simpa [addActive] using h

/-- In every run `PagesCrawled + Errors` has grown by the number of results
appended plus the number of workers that hold a result not added yet; so when
no worker holds one (at the end of the run in particular), the growth of
`PagesCrawled + Errors` is the number of results appended. -/
theorem counters_match_results (lib : Lib) (fs : FileSystem) (sitemapURLs : List String)
    (c : Crawler) (s : State) (hs : Reachable lib fs sitemapURLs c s) :
    Accounted (Start lib fs sitemapURLs c) s := by
  refine reachable_induction lib fs sitemapURLs c (Accounted (Start lib fs sitemapURLs c))
    ?_ (fun a b ha hstep => accounted_step lib _ a b hstep ha) s hs
  have h0 : addingCount (Start lib fs sitemapURLs c).workers = 0 := by
    simp [addingCount, Start, List.countP_eq_zero, WorkerPC.isAdding]
  unfold Accounted
  rw [h0]
  omega

/-! ## A single worker -/

theorem set_singleton {α : Type} (x y z : α) (i : Nat) (h : [x].get? i = some z) :
    [x].set i y = [y] ∧ z = x := by
  cases i with
  | zero =>
    simp only [List.get?_cons_zero, Option.some.injEq] at h
    exact ⟨rfl, h.symm⟩
  | succ n => simp at h

theorem shouldSkip_false_not_visited (lib : Lib) (c : Crawler) (u : String)
    (h : (shouldSkip lib c u).1 = false) : u ∉ c.visited := by
  intro hv
  rw [shouldSkip_of_visited lib c u hv] at h
  cases h

/-- Every transition keeps the single-worker invariant. -/
theorem soloInv_step (lib : Lib) (r0 : List PageResult) (s t : State) (hstep : Step lib s t)
    (h : SoloInv r0 s) : SoloInv r0 t := by
  obtain ⟨pc, app, hw, hres, hnd, hvis, hpc⟩ := h
  have hmain : t.workers = s.workers → t.c.results = s.c.results →
      t.c.visited = s.c.visited → SoloInv r0 t := by
    intro h1 h2 h3
    exact ⟨pc, app, by rw [h1, hw], by rw [h2, hres], hnd, by rw [h3]; exact hvis,
      by rw [h3]; exact hpc⟩
  have hworker : ∀ (i : Nat) (old new : WorkerPC), s.workers.get? i = some old →
      t.workers = s.workers.set i new → t.c.results = s.c.results →
      t.c.visited = s.c.visited → (old = pc → new.soloOk s.c.visited (app.map (fun r => r.URL))) →
      SoloInv r0 t := by
    intro i old new hget h1 h2 h3 hnew
    rw [hw] at hget
    obtain ⟨hset, hold⟩ := set_singleton pc new old i hget
    exact ⟨new, app, by rw [h1, hw, hset], by rw [h2, hres], hnd, by rw [h3]; exact hvis,
      by rw [h3]; exact hnew hold⟩
  cases hstep with
  | panic => exact hmain rfl rfl rfl
  | sitemapDone hm => exact hmain rfl rfl rfl
  | sitemapAccept url rest hm hv hd => exact hmain rfl rfl rfl
  | sitemapReject url rest hm => exact hmain rfl rfl rfl
  | sitemapCount url rest hm => exact hmain rfl rfl rfl
  | sitemapSend url rest hm hc => exact hmain rfl rfl rfl
  | baseAccept hm hv => exact hmain rfl rfl rfl
  | baseSkip hm => exact hmain rfl rfl rfl
  | baseCount hm => exact hmain rfl rfl rfl
  | baseSend hm hc => exact hmain rfl rfl rfl
  | monitorZero hm hz => exact hmain rfl rfl rfl
  | monitorBusy hm => exact hmain rfl rfl rfl
  | graceClose hm hz => exact hmain rfl rfl rfl
  | graceResume hm => exact hmain rfl rfl rfl
  | receive i job rest hget hj => exact hworker i _ _ hget rfl rfl rfl (fun _ => trivial)
  | exit i hget hj hc => exact hworker i _ _ hget rfl rfl rfl (fun _ => trivial)
  | decrement i job hget => exact hworker i _ _ hget rfl rfl rfl (fun _ => trivial)
  | skip i job hget hs =>
    have hso := shouldSkip_statsOnly lib s.c job.URL
    exact hworker i _ _ hget rfl hso.results hso.visited (fun _ => trivial)
  | pass i job hget hs =>
    have hso := shouldSkip_statsOnly lib s.c job.URL
    exact hworker i _ _ hget rfl hso.results hso.visited
      (fun _ => shouldSkip_false_not_visited lib s.c job.URL hs)
  | mark i job hget =>
    rw [hw] at hget
    obtain ⟨hset, hold⟩ := set_singleton pc (.fetching job) _ i hget
    subst hold
    have hnv : job.URL ∉ s.c.visited := hpc
    refine ⟨.fetching job, app, ?_, hres, hnd, ?_, ?_, ?_⟩
    · show s.workers.set i (.fetching job) = _
      rw [hw, hset]
    · intro r hr
      exact (mem_storeVisited _ _ _).mpr (Or.inl (hvis r hr))
    · exact (mem_storeVisited _ _ _).mpr (Or.inr rfl)
    · intro hmem
      obtain ⟨r, hr, hru⟩ := List.mem_map.mp hmem
      exact hnv (hru ▸ hvis r hr)
  | fetch i job now o result c hget hf =>
    obtain ⟨hu, _, hso⟩ := crawlPage_frame lib s.c job.URL job.Depth now o result c hf
    refine hworker i _ _ hget rfl hso.results hso.visited (fun hold => ?_)
    subst hold
    show result.URL ∈ s.c.visited ∧ result.URL ∉ _
    rw [hu]
    exact hpc
  | addDeeper i job result hget hd =>
    rw [hw] at hget
    obtain ⟨hset, hold⟩ := set_singleton pc (.linking job result.Links) _ i hget
    subst hold
    have hr : result.URL ∈ s.c.visited ∧ result.URL ∉ app.map (fun r => r.URL) := hpc
    refine ⟨.linking job result.Links, app ++ [result], ?_, ?_, ?_, ?_, trivial⟩
    · show s.workers.set i _ = _
      rw [hw, hset]
    · show s.c.results ++ [result] = r0 ++ (app ++ [result])
      rw [hres, List.append_assoc]
    · rw [List.map_append, List.nodup_append]
      refine ⟨hnd, by simp, ?_⟩
      intro a ha hb
      simp only [List.map_cons, List.map_nil, List.mem_singleton] at hb
      exact hr.2 (hb ▸ ha)
    · intro r hr'
      rcases List.mem_append.mp hr' with hr' | hr'
      · exact hvis r hr'
      · rw [List.mem_singleton.mp hr']; exact hr.1
  | addLeaf i job result hget hd =>
    rw [hw] at hget
    obtain ⟨hset, hold⟩ := set_singleton pc .idle _ i hget
    subst hold
    have hr : result.URL ∈ s.c.visited ∧ result.URL ∉ app.map (fun r => r.URL) := hpc
    refine ⟨.idle, app ++ [result], ?_, ?_, ?_, ?_, trivial⟩
    · show s.workers.set i _ = _
      rw [hw, hset]
    · show s.c.results ++ [result] = r0 ++ (app ++ [result])
      rw [hres, List.append_assoc]
    · rw [List.map_append, List.nodup_append]
      refine ⟨hnd, by simp, ?_⟩
      intro a ha hb
      simp only [List.map_cons, List.map_nil, List.mem_singleton] at hb
      exact hr.2 (hb ▸ ha)
    · intro r hr'
      rcases List.mem_append.mp hr' with hr' | hr'
      · exact hvis r hr'
      · rw [List.mem_singleton.mp hr']; exact hr.1
  | linksDone i job hget => exact hworker i _ _ hget rfl rfl rfl (fun _ => trivial)
  | linkAccept i job link rest hget ha =>
    have hso := acceptLink_statsOnly lib s.c link
    exact hworker i _ _ hget rfl hso.results hso.visited (fun _ => trivial)
  | linkReject i job link rest hget ha =>
    have hso := acceptLink_statsOnly lib s.c link
    exact hworker i _ _ hget rfl hso.results hso.visited (fun _ => trivial)
  | count i job link rest hget => exact hworker i _ _ hget rfl rfl rfl (fun _ => trivial)
  | workerSend i job link rest hget hc =>
    exact hworker i _ _ hget rfl rfl rfl (fun _ => trivial)

/-- With a single worker every interleaving (of the worker with `Start` and the
monitor) appends at most one `PageResult` per URL: the results appended in the
run are for pairwise different URLs. -/
theorem single_worker_results_distinct (lib : Lib) (fs : FileSystem)
    (sitemapURLs : List String) (c : Crawler) (h1 : c.config.MaxWorkers = 1) (s : State)
    (hs : Reachable lib fs sitemapURLs c s) :
    ∃ appended, s.c.results = (Start lib fs sitemapURLs c).c.results ++ appended ∧
      (appended.map (fun r => r.URL)).Nodup := by
  have hinv : SoloInv (Start lib fs sitemapURLs c).c.results s := by
    refine reachable_induction lib fs sitemapURLs c
      (SoloInv (Start lib fs sitemapURLs c).c.results) ?_
      (fun a b ha hstep => soloInv_step lib _ a b hstep ha) s hs
    refine ⟨.idle, [], ?_, by simp, by simp, by simp, trivial⟩
    simp [Start, h1]
  obtain ⟨pc, app, _, hres, hnd, _, _⟩ := hinv
  exact ⟨app, hres, hnd⟩

/-! ## What `activeJobs` counts -/

theorem holdsCount_set (workers : List WorkerPC) (i : Nat) (old new : WorkerPC)
    (h : workers.get? i = some old) :
    (((workers.set i new).countP WorkerPC.holdsCount : Nat) : Int)
        + (if old.holdsCount then 1 else 0)
      = ((workers.countP WorkerPC.holdsCount : Nat) : Int)
        + (if new.holdsCount then 1 else 0) := by
  have := countP_set_eq WorkerPC.holdsCount workers i old new h
  split <;> split <;> simp_all
  all_goals omega

/-- Every transition keeps `activeJobs` equal to the queue length plus the
units in transit. -/
theorem countsQueue_step (lib : Lib) (a0 : Int) (s t : State) (hstep : Step lib s t)
    (h : CountsQueue a0 s) : CountsQueue a0 t := by
  unfold CountsQueue at h ⊢
  cases hstep with
  | panic => exact h
  | sitemapDone hm => simpa [hm, MainPC.holdsCount] using h
  | sitemapAccept url rest hm hv hd => simpa [hm, MainPC.holdsCount] using h
  | sitemapReject url rest hm => simpa [hm, MainPC.holdsCount] using h
  | sitemapCount url rest hm =>
    simp only [hm, MainPC.holdsCount, addActive, Bool.false_eq_true, if_false, if_true] at h ⊢
    omega
  | sitemapSend url rest hm hc =>
    simp only [hm, MainPC.holdsCount, List.length_append, List.length_singleton,
      Bool.false_eq_true, if_false, if_true] at h ⊢
    omega
  | baseAccept hm hv => simpa [hm, MainPC.holdsCount] using h
  | baseSkip hm => simpa [hm, MainPC.holdsCount] using h
  | baseCount hm =>
    simp only [hm, MainPC.holdsCount, addActive, Bool.false_eq_true, if_false, if_true] at h ⊢
    omega
  | baseSend hm hc =>
    simp only [hm, MainPC.holdsCount, List.length_append, List.length_singleton,
      Bool.false_eq_true, if_false, if_true] at h ⊢
    omega
  | monitorZero hm hz => simpa [hm, MainPC.holdsCount] using h
  | monitorBusy hm => exact h
  | graceClose hm hz => simpa [hm, MainPC.holdsCount] using h
  | graceResume hm => simpa [hm, MainPC.holdsCount] using h
  | receive i job rest hpc hj =>
    have hcnt := holdsCount_set s.workers i _ (.received job) hpc
    simp only [State.setWorker, WorkerPC.holdsCount, hj, List.length_cons] at hcnt h ⊢
    simp only [Bool.false_eq_true, if_false, if_true] at hcnt
    omega
  | exit i hpc hj hc =>
    have hcnt := holdsCount_set s.workers i _ .exited hpc
    simp only [State.setWorker, WorkerPC.holdsCount] at hcnt ⊢
    simp only [Bool.false_eq_true, if_false] at hcnt
    omega
  | decrement i job hpc =>
    have hcnt := holdsCount_set s.workers i _ (.checking job) hpc
    simp only [State.setWorker, WorkerPC.holdsCount, addActive] at hcnt ⊢
    simp only [Bool.false_eq_true, if_false, if_true] at hcnt
    omega
  | skip i job hpc hs =>
    have hcnt := holdsCount_set s.workers i _ .idle hpc
    have ha := (shouldSkip_statsOnly lib s.c job.URL).activeJobs
    simp only [State.setWorker, WorkerPC.holdsCount, ha] at hcnt ⊢
    simp only [Bool.false_eq_true, if_false] at hcnt
    omega
  | pass i job hpc hs =>
    have hcnt := holdsCount_set s.workers i _ (.marking job) hpc
    have ha := (shouldSkip_statsOnly lib s.c job.URL).activeJobs
    simp only [State.setWorker, WorkerPC.holdsCount, ha] at hcnt ⊢
    simp only [Bool.false_eq_true, if_false] at hcnt
    omega
  | mark i job hpc =>
    have hcnt := holdsCount_set s.workers i _ (.fetching job) hpc
    simp only [State.setWorker, WorkerPC.holdsCount, markVisited] at hcnt ⊢
    simp only [Bool.false_eq_true, if_false] at hcnt
    omega
  | fetch i job now o result c hpc hf =>
    have hcnt := holdsCount_set s.workers i _ (.adding job result) hpc
    have ha := (crawlPage_frame lib s.c job.URL job.Depth now o result c hf).2.2.activeJobs
    simp only [State.setWorker, WorkerPC.holdsCount, ha] at hcnt ⊢
    simp only [Bool.false_eq_true, if_false] at hcnt
    omega
  | addDeeper i job result hpc hd =>
    have hcnt := holdsCount_set s.workers i _ (.linking job result.Links) hpc
    simp only [State.setWorker, WorkerPC.holdsCount, addResult] at hcnt ⊢
    simp only [Bool.false_eq_true, if_false] at hcnt
    omega
  | addLeaf i job result hpc hd =>
    have hcnt := holdsCount_set s.workers i _ .idle hpc
    simp only [State.setWorker, WorkerPC.holdsCount, addResult] at hcnt ⊢
    simp only [Bool.false_eq_true, if_false] at hcnt
    omega
  | linksDone i job hpc =>
    have hcnt := holdsCount_set s.workers i _ .idle hpc
    simp only [State.setWorker, WorkerPC.holdsCount] at hcnt ⊢
    simp only [Bool.false_eq_true, if_false] at hcnt
    omega
  | linkAccept i job link rest hpc ha =>
    have hcnt := holdsCount_set s.workers i _ (.counting job link rest) hpc
    have ha' := (acceptLink_statsOnly lib s.c link).activeJobs
    simp only [State.setWorker, WorkerPC.holdsCount, ha'] at hcnt ⊢
    simp only [Bool.false_eq_true, if_false] at hcnt
    omega
  | linkReject i job link rest hpc ha =>
    have hcnt := holdsCount_set s.workers i _ (.linking job rest) hpc
    have ha' := (acceptLink_statsOnly lib s.c link).activeJobs
    simp only [State.setWorker, WorkerPC.holdsCount, ha'] at hcnt ⊢
    simp only [Bool.false_eq_true, if_false] at hcnt
    omega
  | count i job link rest hpc =>
    have hcnt := holdsCount_set s.workers i _ (.sending job link rest) hpc
    simp only [State.setWorker, WorkerPC.holdsCount, addActive] at hcnt ⊢
    simp only [Bool.false_eq_true, if_false, if_true] at hcnt
    omega
  | workerSend i job link rest hpc hc =>
    have hcnt := holdsCount_set s.workers i _ (.linking job rest) hpc
    simp only [State.setWorker, WorkerPC.holdsCount, List.length_append,
      List.length_singleton] at hcnt ⊢
    simp only [Bool.false_eq_true, if_false, if_true] at hcnt
    omega

/-- In every run `activeJobs` is the number of queued jobs plus the units in
transit between an atomic add and its channel operation: a job that a worker is
checking, fetching or expanding is not counted. -/
theorem activeJobs_counts_queue (lib : Lib) (fs : FileSystem) (sitemapURLs : List String)
    (c : Crawler) (s : State) (hs : Reachable lib fs sitemapURLs c s) :
    CountsQueue c.activeJobs s := by
  refine reachable_induction lib fs sitemapURLs c (CountsQueue c.activeJobs) ?_
    (fun a b ha hstep => countsQueue_step lib _ a b hstep ha) s hs
  have hact : (Start lib fs sitemapURLs c).c.activeJobs = c.activeJobs := by
    simp only [Start, LoadCheckpoint]
    split
    · rfl
    · split <;> rfl
  have hw : (Start lib fs sitemapURLs c).workers.countP WorkerPC.holdsCount = 0 := by
    simp [Start, List.countP_eq_zero, WorkerPC.holdsCount]
  have hm : (Start lib fs sitemapURLs c).main.holdsCount = false := by
    simp only [Start]
    split <;> rfl
  unfold CountsQueue
  rw [hact, hw, hm]
  simp [Start]

/-! ## Checkpoint round trip -/

theorem coerceFuel_of_valid (fuel : Nat) :
    ∀ s : GoString, validFuel fuel s = true → coerceFuel fuel s = s := by
  induction fuel with
  | zero =>
    intro s h
    cases s with
    | nil => rfl
    | cons b rest => simp [validFuel] at h
  | succ n ih =>
    intro s h
    cases s with
    | nil => rfl
    | cons b rest =>
      unfold validFuel at h
      unfold coerceFuel
      split at h
      · cases h
      · rw [ih _ h]
        exact List.take_append_drop _ _

/-- The coercion of `encoding/json` leaves a valid UTF-8 string as it is. -/
theorem coerceUTF8_of_valid (s : GoString) (h : validUTF8 s = true) : coerceUTF8 s = s :=
  coerceFuel_of_valid s.length s h

theorem map_coerceUTF8_of_valid (l : List GoString) (h : l.all validUTF8 = true) :
    l.map coerceUTF8 = l := by
  induction l with
  | nil => rfl
  | cons x xs ih =>
    simp only [List.all_cons, Bool.and_eq_true] at h
    rw [List.map_cons, coerceUTF8_of_valid x h.1, ih h.2]

theorem pageResult_coerce_of_valid (r : Bytes.PageResult) (h : r.valid = true) :
    r.coerce = r := by
  simp only [Bytes.PageResult.valid, Bool.and_eq_true] at h
  obtain ⟨⟨⟨⟨h1, h2⟩, h3⟩, h4⟩, h5⟩ := h
  simp only [Bytes.PageResult.coerce, coerceUTF8_of_valid _ h1, coerceUTF8_of_valid _ h2,
    map_coerceUTF8_of_valid _ h3, coerceUTF8_of_valid _ h4, coerceUTF8_of_valid _ h5]

theorem map_pageResult_coerce_of_valid (l : List Bytes.PageResult)
    (h : l.all Bytes.PageResult.valid = true) : l.map Bytes.PageResult.coerce = l := by
  induction l with
  | nil => rfl
  | cons x xs ih =>
    simp only [List.all_cons, Bool.and_eq_true] at h
    rw [List.map_cons, pageResult_coerce_of_valid x h.1, ih h.2]

theorem mem_bytes_storeVisited (v : List GoString) (x u : GoString) :
    u ∈ Bytes.storeVisited v x ↔ u ∈ v ∨ u = x := by
  unfold Bytes.storeVisited
  split
  · constructor
    · exact Or.inl
    · rintro (h | h)
      · exact h
      · subst h; assumption
  · simp

theorem mem_foldl_bytes_storeVisited (l v : List GoString) (u : GoString) :
    u ∈ l.foldl Bytes.storeVisited v ↔ u ∈ v ∨ u ∈ l := by
  induction l generalizing v with
  | nil => simp
  | cons x xs ih =>
    simp only [List.foldl_cons, ih, mem_bytes_storeVisited, List.mem_cons]
    tauto

set_option maxRecDepth 8192 in
/-- C8 (counterexample): a crawler that has crawled `http://example.com/` followed
by the byte `0xFF` saves its checkpoint, and a fresh crawler for the same domain
loads it: the load returns true, but the saved URL is not in the restored
visited set and the restored results are not the saved ones, because
`json.Marshal` wrote U+FFFD for the byte. And when the write of the file fails,
`SaveCheckpoint` returns an error and `LoadCheckpoint` returns false. -/
theorem C8_invalid_utf8_not_restored :
    Bytes.rawURL ∈ Bytes.rawCrawler.visited ∧
    (Bytes.saveThenLoad (Bytes.jsonFor (Bytes.checkpointOf Bytes.rawCrawler 12) Bytes.rawText)
        emptyFS Bytes.rawCrawler 12 (sampleConfig 5 3 false) 40).map
      (fun r => (r.1, decide (Bytes.rawURL ∈ r.2.visited),
        decide (r.2.results = Bytes.rawCrawler.results), r.2.visited))
      = some (true, false, false, [ascii "http://example.com/" ++ replacementChar]) ∧
    Bytes.saveThenLoad (Bytes.jsonFor (Bytes.checkpointOf Bytes.rawCrawler 12) Bytes.rawText)
        Bytes.readOnlyFS Bytes.rawCrawler 12 (sampleConfig 5 3 false) 40 = none ∧
    (Bytes.LoadCheckpoint (Bytes.jsonFor (Bytes.checkpointOf Bytes.rawCrawler 12) Bytes.rawText)
        Bytes.readOnlyFS (Bytes.NewCrawler (sampleConfig 5 3 false) 40)).1 = false :=
  ⟨by decide, rfl, rfl, rfl⟩

/-- C8 (amended): when `SaveCheckpoint` returns no error on a crawler (whose
checkpoint file is the one `NewCrawler` computes for its domain), `LoadCheckpoint`
on a fresh crawler for the same domain returns true and restores the stats
unchanged, and the visited URLs and the results with every string coerced to
valid UTF-8 as `encoding/json` does; so when every string of the state is valid
UTF-8 the restored visited set has the same members and the restored results
are the same sequence. -/
theorem C8_load_after_save_restores_coerced (json : Bytes.JSON) (fs fs' : FileSystem)
    (c : Bytes.Crawler) (now : Nat) (cfg : Config) (now' : Nat)
    (hjson : json.ReadsBack (Bytes.checkpointOf c now))
    (hfile : c.checkpointFile = checkpointPath c.config.AllowedDomain)
    (hdom : cfg.AllowedDomain = c.config.AllowedDomain)
    (hsave : Bytes.SaveCheckpoint json fs c now = .ok fs') :
    (Bytes.LoadCheckpoint json fs' (Bytes.NewCrawler cfg now')).1 = true ∧
    (∀ u, u ∈ (Bytes.LoadCheckpoint json fs' (Bytes.NewCrawler cfg now')).2.visited ↔
      u ∈ c.visited.map coerceUTF8) ∧
    (Bytes.LoadCheckpoint json fs' (Bytes.NewCrawler cfg now')).2.results
      = c.results.map Bytes.PageResult.coerce ∧
    (Bytes.LoadCheckpoint json fs' (Bytes.NewCrawler cfg now')).2.stats = c.stats ∧
    (c.valid = true →
      (∀ u, u ∈ (Bytes.LoadCheckpoint json fs' (Bytes.NewCrawler cfg now')).2.visited ↔
        u ∈ c.visited) ∧
      (Bytes.LoadCheckpoint json fs' (Bytes.NewCrawler cfg now')).2.results = c.results) := by
  unfold Bytes.SaveCheckpoint at hsave
  cases hm : json.Marshal (Bytes.checkpointOf c now) with
  | error e => simp [hm] at hsave
  | ok data =>
    simp only [hm] at hsave
    split at hsave
    · have hfs : fs' = fs.write c.checkpointFile data := by
        injection hsave with h; exact h.symm
      have hread : fs'.files (Bytes.NewCrawler cfg now').checkpointFile = some data := by
        simp [hfs, FileSystem.write, Bytes.NewCrawler, hdom, hfile]
      have hdec := hjson _ hm
      have hload : Bytes.LoadCheckpoint json fs' (Bytes.NewCrawler cfg now')
          = (true, { Bytes.NewCrawler cfg now' with
              visited := (c.visited.map coerceUTF8).foldl Bytes.storeVisited []
              results := c.results.map Bytes.PageResult.coerce
              stats := c.stats }) := by
        simp only [Bytes.LoadCheckpoint, hread, hdec]
        rfl
      rw [hload]
      refine ⟨rfl, ?_, rfl, rfl, ?_⟩
      · intro u
        simp [mem_foldl_bytes_storeVisited]
      · intro hv
        simp only [Bytes.Crawler.valid, Bool.and_eq_true] at hv
        refine ⟨?_, map_pageResult_coerce_of_valid _ hv.2⟩
        intro u
        simp only [mem_foldl_bytes_storeVisited, map_coerceUTF8_of_valid _ hv.1]
        simp
    · simp at hsave

theorem jsonFor_readsBack (ck : Bytes.Checkpoint) (text : String) :
    (Bytes.jsonFor ck text).ReadsBack ck := by
  intro data h
  simp only [Bytes.jsonFor] at h ⊢
  simp only [if_true] at h
  injection h with h
  subst h
  simp

/-- C8 (witness): the crawler that has crawled `http://example.com/café` saves
to an empty file system, and a fresh crawler for `example.com` loads the file. -/
theorem C8_load_after_save_restores_coerced_witness :
    (Bytes.jsonFor (Bytes.checkpointOf Bytes.plainCrawler 12) "doc").ReadsBack
      (Bytes.checkpointOf Bytes.plainCrawler 12) ∧
    Bytes.plainCrawler.checkpointFile = checkpointPath Bytes.plainCrawler.config.AllowedDomain ∧
    (sampleConfig 5 3 false).AllowedDomain = Bytes.plainCrawler.config.AllowedDomain ∧
    Bytes.SaveCheckpoint (Bytes.jsonFor (Bytes.checkpointOf Bytes.plainCrawler 12) "doc") emptyFS
        Bytes.plainCrawler 12 = .ok (emptyFS.write Bytes.plainCrawler.checkpointFile "doc") ∧
    Bytes.plainCrawler.valid = true ∧
    ((Bytes.LoadCheckpoint (Bytes.jsonFor (Bytes.checkpointOf Bytes.plainCrawler 12) "doc")
        (emptyFS.write Bytes.plainCrawler.checkpointFile "doc")
        (Bytes.NewCrawler (sampleConfig 5 3 false) 40)).1 = true ∧
    (∀ u, u ∈ (Bytes.LoadCheckpoint
        (Bytes.jsonFor (Bytes.checkpointOf Bytes.plainCrawler 12) "doc")
        (emptyFS.write Bytes.plainCrawler.checkpointFile "doc")
        (Bytes.NewCrawler (sampleConfig 5 3 false) 40)).2.visited ↔
      u ∈ Bytes.plainCrawler.visited.map coerceUTF8) ∧
    (Bytes.LoadCheckpoint (Bytes.jsonFor (Bytes.checkpointOf Bytes.plainCrawler 12) "doc")
        (emptyFS.write Bytes.plainCrawler.checkpointFile "doc")
        (Bytes.NewCrawler (sampleConfig 5 3 false) 40)).2.results
      = Bytes.plainCrawler.results.map Bytes.PageResult.coerce ∧
    (Bytes.LoadCheckpoint (Bytes.jsonFor (Bytes.checkpointOf Bytes.plainCrawler 12) "doc")
        (emptyFS.write Bytes.plainCrawler.checkpointFile "doc")
        (Bytes.NewCrawler (sampleConfig 5 3 false) 40)).2.stats = Bytes.plainCrawler.stats ∧
    (Bytes.plainCrawler.valid = true →
      (∀ u, u ∈ (Bytes.LoadCheckpoint
          (Bytes.jsonFor (Bytes.checkpointOf Bytes.plainCrawler 12) "doc")
          (emptyFS.write Bytes.plainCrawler.checkpointFile "doc")
          (Bytes.NewCrawler (sampleConfig 5 3 false) 40)).2.visited ↔
        u ∈ Bytes.plainCrawler.visited) ∧
      (Bytes.LoadCheckpoint (Bytes.jsonFor (Bytes.checkpointOf Bytes.plainCrawler 12) "doc")
          (emptyFS.write Bytes.plainCrawler.checkpointFile "doc")
          (Bytes.NewCrawler (sampleConfig 5 3 false) 40)).2.results
        = Bytes.plainCrawler.results)) :=
  ⟨jsonFor_readsBack _ _, rfl, rfl, rfl, by decide,
    C8_load_after_save_restores_coerced
      (Bytes.jsonFor (Bytes.checkpointOf Bytes.plainCrawler 12) "doc") emptyFS
      (emptyFS.write Bytes.plainCrawler.checkpointFile "doc") Bytes.plainCrawler 12
      (sampleConfig 5 3 false) 40 (jsonFor_readsBack _ _) rfl rfl rfl⟩

end Engine
